import Mathlib

/-!
# Verification of the language-identification subsystem

A shallow embedding, over `List Char`, of the two functions in
`api/utils/language_utils.py`:

* `extract_first_sentence_for_detection(text, max_chars = 50)`
* `detect_language(text)`

Python strings are modelled as `List Char` (a Python `str` is a sequence of
Unicode code points).  Python's float comparisons `ratio > 0.05` /
`ratio > 0.5` on count ratios are modelled in exact arithmetic (the claims
and the spec state the thresholds as exact numbers, and the two readings
agree on every input whose length is far below `2^52`).

Each `re.sub(pattern, '', s)` call of the source is modelled by a
purpose-built scanner that was checked against the regex semantics:
leftmost, non-overlapping matches over the original string, deleted from
the result.
-/

set_option maxRecDepth 8192

namespace LangUtils

/-- Code points that Python's `str.strip`, `str.isspace` and the regex class
`\s` treat as whitespace (CPython's `Py_UNICODE_ISSPACE` table). -/
def pythonWhitespace : List Nat :=
  [0x09, 0x0A, 0x0B, 0x0C, 0x0D, 0x1C, 0x1D, 0x1E, 0x1F, 0x20, 0x85, 0xA0,
   0x1680, 0x2000, 0x2001, 0x2002, 0x2003, 0x2004, 0x2005, 0x2006, 0x2007,
   0x2008, 0x2009, 0x200A, 0x2028, 0x2029, 0x202F, 0x205F, 0x3000]

/-- Whitespace test on a single character (Python `str.isspace` on one char). -/
def isSpace (c : Char) : Bool := pythonWhitespace.contains c.toNat

/-- Python `text.strip()`: drop leading and trailing whitespace. -/
def pyStrip (s : List Char) : List Char :=
  (((s.dropWhile isSpace).reverse.dropWhile isSpace)).reverse

/-- ASCII alphabetic test: the guard `ord(char) < 128 and char.isalpha()`
of the source (for code points below 128, Python `isalpha` holds exactly on
`A`-`Z` and `a`-`z`). -/
def isAsciiAlpha (c : Char) : Bool :=
  (0x41 ≤ c.toNat && c.toNat ≤ 0x5A) || (0x61 ≤ c.toNat && c.toNat ≤ 0x7A)

/-- Hiragana block test: `'぀' <= char <= 'ゟ'`. -/
def isHiragana (c : Char) : Bool := 0x3040 ≤ c.toNat && c.toNat ≤ 0x309F

/-- Katakana block test: `'゠' <= char <= 'ヿ'`. -/
def isKatakana (c : Char) : Bool := 0x30A0 ≤ c.toNat && c.toNat ≤ 0x30FF

/-- CJK Unified Ideographs test: `'一' <= char <= '鿿'`. -/
def isKanji (c : Char) : Bool := 0x4E00 ≤ c.toNat && c.toNat ≤ 0x9FFF

/-- The `vietnamese_unique` character set of `detect_language`, transcribed
character for character from the six string literals in the source. -/
def vietnameseUnique : List Char :=
  ("ăđơưĂĐƠƯ" ++ "ặẳẵắằậẩẫấầ" ++ "ợởỡớờộổỗốồ" ++ "ựửữứừ" ++
   "ẶẲẴẮẰẬẨẪẤẦ" ++ "ỢỞỠỚỜỘỔỖỐỒ" ++ "ỰỬỮỨỪ").toList

/-- The `vietnamese_common` character set of `detect_language`, transcribed
from the two string literals in the source. -/
def vietnameseCommon : List Char :=
  ("ạảẹẻịỉọỏụủỵỷ" ++ "ẠẢẸẺỊỈỌỎỤỦỴỶ").toList

/-- The `char_counts` accumulator of `detect_language`. -/
structure CharCounts where
  hiragana : Nat
  katakana : Nat
  kanji : Nat
  vietnamese_unique : Nat
  vietnamese_common : Nat
  ascii : Nat
  total : Nat
  deriving Repr, DecidableEq

/-- The body of the `for char in text` loop of `detect_language`: bump
`total`, then at most one class count via the `if`/`elif` chain. -/
def updateCounts (cc : CharCounts) (c : Char) : CharCounts :=
  let cc := { cc with total := cc.total + 1 }
  if isHiragana c then { cc with hiragana := cc.hiragana + 1 }
  else if isKatakana c then { cc with katakana := cc.katakana + 1 }
  else if isKanji c then { cc with kanji := cc.kanji + 1 }
  else if vietnameseUnique.contains c then
    { cc with vietnamese_unique := cc.vietnamese_unique + 1 }
  else if vietnameseCommon.contains c then
    { cc with vietnamese_common := cc.vietnamese_common + 1 }
  else if c.toNat < 128 && isAsciiAlpha c then { cc with ascii := cc.ascii + 1 }
  else cc

/-- The three supported language labels returned by `detect_language`
(`None`, the undetermined sentinel, is modelled by `Option`). -/
inductive Language where
  | English
  | Japanese
  | Vietnamese
  deriving Repr, DecidableEq

/-- `detect_language(text)`.  The float ratio comparisons of the source
(`japanese_kana_ratio > 0.05`, `kanji_ratio > 0.5`, `ascii_ratio > 0.5`)
are modelled exactly: `(h + k) / total > 0.05` as `20 * (h + k) > total`,
and the two `> 0.5` tests as `2 * count > total`. -/
def detect_language (text : List Char) : Option Language :=
  if text.isEmpty || (pyStrip text).isEmpty then none
  else
    let cc := text.foldl updateCounts ⟨0, 0, 0, 0, 0, 0, 0⟩
    if cc.total = 0 then none
    else if 20 * (cc.hiragana + cc.katakana) > cc.total then some .Japanese
    else if 2 * cc.kanji > cc.total then some .Japanese
    else if 1 ≤ cc.vietnamese_unique then some .Vietnamese
    else if 1 ≤ cc.vietnamese_common then some .Vietnamese
    else if 2 * cc.ascii > cc.total then some .English
    else if 0 < cc.ascii then some .English
    else none

/-! ## The sentence extractor -/

/-- The newline character, written `'\n'` in the source. -/
def newlineChar : Char := Char.ofNat 10

/-- ASCII full stop `.`. -/
def periodChar : Char := Char.ofNat 46

/-- ASCII double quote, the delimiter of the source patterns 1 and 5. -/
def dquoteChar : Char := Char.ofNat 34

/-- ASCII single quote, the delimiter of the source pattern 2. -/
def squoteChar : Char := Char.ofNat 39

/-- Left curly single quote U+2018, the opener of the source pattern 6. -/
def lsquoChar : Char := Char.ofNat 0x2018

/-- Right curly single quote U+2019, the closer of the source pattern 6. -/
def rsquoChar : Char := Char.ofNat 0x2019

/-- The "find first sentence by delimiter" step of the source: locate the
first `'\n'` and the first `'.'` with `str.find`, and if at least one
occurs keep the leading substring up to and including the earlier one. -/
def firstSentenceCut (s : List Char) : List Char :=
  let newlinePos := s.findIdx? (fun c => c = newlineChar)
  let periodPos := s.findIdx? (fun c => c = periodChar)
  match newlinePos, periodPos with
  | none, none => s
  | some n, none => s.take (n + 1)
  | none, some p => s.take (p + 1)
  | some n, some p => s.take (min n p + 1)

/-- The max-character-limit step: `first_sentence[:max_chars]` when the
candidate is longer than `max_chars`. -/
def truncateTo (maxChars : Nat) (s : List Char) : List Char :=
  if s.length > maxChars then s.take maxChars else s

/-- Scanner for `re.sub(o [^c]* c, '', s)`.  The state is `none` outside a
potential match and `some buf` after an unclosed opener, where `buf` holds
the opener and the content scanned so far.  On the first closer the buffer
is discarded (the whole match is deleted); if the input ends first the
buffer is emitted unchanged (an unpaired opener is left untouched, and no
closer occurs beyond it that could complete a later match). -/
def stripPairsGo (o c : Char) : Option (List Char) → List Char → List Char
  | none, [] => []
  | some buf, [] => buf
  | none, x :: xs =>
    if x = o then stripPairsGo o c (some [x]) xs
    else x :: stripPairsGo o c none xs
  | some buf, x :: xs =>
    if x = c then stripPairsGo o c none xs
    else stripPairsGo o c (some (buf ++ [x])) xs

/-- One quoted-span removal pass `re.sub(o [^c]* c, '', s)`. -/
def stripPairs (o c : Char) (s : List Char) : List Char :=
  stripPairsGo o c none s

/-- The six quote patterns of `quote_patterns`, as (opener, closer) pairs, in
source order.  Note that the fifth entry of the source, commented
"CJK double quotes", is literally the ASCII pattern `"[^"]*"` again. -/
def quotePatterns : List (Char × Char) :=
  [(dquoteChar, dquoteChar), (squoteChar, squoteChar),
   ('「', '」'), ('『', '』'),
   (dquoteChar, dquoteChar), (lsquoChar, rsquoChar)]

/-- The `for pattern in quote_patterns` loop: apply the six removals in
order. -/
def stripAllQuotes (s : List Char) : List Char :=
  quotePatterns.foldl (fun acc oc => stripPairs oc.1 oc.2 acc) s

/-- The complete table of code points matched by Python's regex class `\w`
on `str` patterns (CPython 3.11, Unicode 14.0.0): the alphanumeric
characters — `Py_UNICODE_ISALPHA`, `ISDECIMAL`, `ISDIGIT` or `ISNUMERIC` —
plus the underscore, as inclusive code-point ranges, generated from
CPython's own Unicode database.  The `\b` boundaries of the acronym
pattern are word/non-word transitions with respect to exactly this set. -/
def wordCodeRanges : List (Nat × Nat) :=
  [(0x30, 0x39), (0x41, 0x5A), (0x5F, 0x5F), (0x61, 0x7A), (0xAA, 0xAA),
   (0xB2, 0xB3), (0xB5, 0xB5), (0xB9, 0xBA), (0xBC, 0xBE), (0xC0, 0xD6),
   (0xD8, 0xF6), (0xF8, 0x2C1), (0x2C6, 0x2D1), (0x2E0, 0x2E4), (0x2EC, 0x2EC),
   (0x2EE, 0x2EE), (0x370, 0x374), (0x376, 0x377), (0x37A, 0x37D), (0x37F, 0x37F),
   (0x386, 0x386), (0x388, 0x38A), (0x38C, 0x38C), (0x38E, 0x3A1), (0x3A3, 0x3F5),
   (0x3F7, 0x481), (0x48A, 0x52F), (0x531, 0x556), (0x559, 0x559), (0x560, 0x588),
   (0x5D0, 0x5EA), (0x5EF, 0x5F2), (0x620, 0x64A), (0x660, 0x669), (0x66E, 0x66F),
   (0x671, 0x6D3), (0x6D5, 0x6D5), (0x6E5, 0x6E6), (0x6EE, 0x6FC), (0x6FF, 0x6FF),
   (0x710, 0x710), (0x712, 0x72F), (0x74D, 0x7A5), (0x7B1, 0x7B1), (0x7C0, 0x7EA),
   (0x7F4, 0x7F5), (0x7FA, 0x7FA), (0x800, 0x815), (0x81A, 0x81A), (0x824, 0x824),
   (0x828, 0x828), (0x840, 0x858), (0x860, 0x86A), (0x870, 0x887), (0x889, 0x88E),
   (0x8A0, 0x8C9), (0x904, 0x939), (0x93D, 0x93D), (0x950, 0x950), (0x958, 0x961),
   (0x966, 0x96F), (0x971, 0x980), (0x985, 0x98C), (0x98F, 0x990), (0x993, 0x9A8),
   (0x9AA, 0x9B0), (0x9B2, 0x9B2), (0x9B6, 0x9B9), (0x9BD, 0x9BD), (0x9CE, 0x9CE),
   (0x9DC, 0x9DD), (0x9DF, 0x9E1), (0x9E6, 0x9F1), (0x9F4, 0x9F9), (0x9FC, 0x9FC),
   (0xA05, 0xA0A), (0xA0F, 0xA10), (0xA13, 0xA28), (0xA2A, 0xA30), (0xA32, 0xA33),
   (0xA35, 0xA36), (0xA38, 0xA39), (0xA59, 0xA5C), (0xA5E, 0xA5E), (0xA66, 0xA6F),
   (0xA72, 0xA74), (0xA85, 0xA8D), (0xA8F, 0xA91), (0xA93, 0xAA8), (0xAAA, 0xAB0),
   (0xAB2, 0xAB3), (0xAB5, 0xAB9), (0xABD, 0xABD), (0xAD0, 0xAD0), (0xAE0, 0xAE1),
   (0xAE6, 0xAEF), (0xAF9, 0xAF9), (0xB05, 0xB0C), (0xB0F, 0xB10), (0xB13, 0xB28),
   (0xB2A, 0xB30), (0xB32, 0xB33), (0xB35, 0xB39), (0xB3D, 0xB3D), (0xB5C, 0xB5D),
   (0xB5F, 0xB61), (0xB66, 0xB6F), (0xB71, 0xB77), (0xB83, 0xB83), (0xB85, 0xB8A),
   (0xB8E, 0xB90), (0xB92, 0xB95), (0xB99, 0xB9A), (0xB9C, 0xB9C), (0xB9E, 0xB9F),
   (0xBA3, 0xBA4), (0xBA8, 0xBAA), (0xBAE, 0xBB9), (0xBD0, 0xBD0), (0xBE6, 0xBF2),
   (0xC05, 0xC0C), (0xC0E, 0xC10), (0xC12, 0xC28), (0xC2A, 0xC39), (0xC3D, 0xC3D),
   (0xC58, 0xC5A), (0xC5D, 0xC5D), (0xC60, 0xC61), (0xC66, 0xC6F), (0xC78, 0xC7E),
   (0xC80, 0xC80), (0xC85, 0xC8C), (0xC8E, 0xC90), (0xC92, 0xCA8), (0xCAA, 0xCB3),
   (0xCB5, 0xCB9), (0xCBD, 0xCBD), (0xCDD, 0xCDE), (0xCE0, 0xCE1), (0xCE6, 0xCEF),
   (0xCF1, 0xCF2), (0xD04, 0xD0C), (0xD0E, 0xD10), (0xD12, 0xD3A), (0xD3D, 0xD3D),
   (0xD4E, 0xD4E), (0xD54, 0xD56), (0xD58, 0xD61), (0xD66, 0xD78), (0xD7A, 0xD7F),
   (0xD85, 0xD96), (0xD9A, 0xDB1), (0xDB3, 0xDBB), (0xDBD, 0xDBD), (0xDC0, 0xDC6),
   (0xDE6, 0xDEF), (0xE01, 0xE30), (0xE32, 0xE33), (0xE40, 0xE46), (0xE50, 0xE59),
   (0xE81, 0xE82), (0xE84, 0xE84), (0xE86, 0xE8A), (0xE8C, 0xEA3), (0xEA5, 0xEA5),
   (0xEA7, 0xEB0), (0xEB2, 0xEB3), (0xEBD, 0xEBD), (0xEC0, 0xEC4), (0xEC6, 0xEC6),
   (0xED0, 0xED9), (0xEDC, 0xEDF), (0xF00, 0xF00), (0xF20, 0xF33), (0xF40, 0xF47),
   (0xF49, 0xF6C), (0xF88, 0xF8C), (0x1000, 0x102A), (0x103F, 0x1049), (0x1050, 0x1055),
   (0x105A, 0x105D), (0x1061, 0x1061), (0x1065, 0x1066), (0x106E, 0x1070), (0x1075, 0x1081),
   (0x108E, 0x108E), (0x1090, 0x1099), (0x10A0, 0x10C5), (0x10C7, 0x10C7), (0x10CD, 0x10CD),
   (0x10D0, 0x10FA), (0x10FC, 0x1248), (0x124A, 0x124D), (0x1250, 0x1256), (0x1258, 0x1258),
   (0x125A, 0x125D), (0x1260, 0x1288), (0x128A, 0x128D), (0x1290, 0x12B0), (0x12B2, 0x12B5),
   (0x12B8, 0x12BE), (0x12C0, 0x12C0), (0x12C2, 0x12C5), (0x12C8, 0x12D6), (0x12D8, 0x1310),
   (0x1312, 0x1315), (0x1318, 0x135A), (0x1369, 0x137C), (0x1380, 0x138F), (0x13A0, 0x13F5),
   (0x13F8, 0x13FD), (0x1401, 0x166C), (0x166F, 0x167F), (0x1681, 0x169A), (0x16A0, 0x16EA),
   (0x16EE, 0x16F8), (0x1700, 0x1711), (0x171F, 0x1731), (0x1740, 0x1751), (0x1760, 0x176C),
   (0x176E, 0x1770), (0x1780, 0x17B3), (0x17D7, 0x17D7), (0x17DC, 0x17DC), (0x17E0, 0x17E9),
   (0x17F0, 0x17F9), (0x1810, 0x1819), (0x1820, 0x1878), (0x1880, 0x1884), (0x1887, 0x18A8),
   (0x18AA, 0x18AA), (0x18B0, 0x18F5), (0x1900, 0x191E), (0x1946, 0x196D), (0x1970, 0x1974),
   (0x1980, 0x19AB), (0x19B0, 0x19C9), (0x19D0, 0x19DA), (0x1A00, 0x1A16), (0x1A20, 0x1A54),
   (0x1A80, 0x1A89), (0x1A90, 0x1A99), (0x1AA7, 0x1AA7), (0x1B05, 0x1B33), (0x1B45, 0x1B4C),
   (0x1B50, 0x1B59), (0x1B83, 0x1BA0), (0x1BAE, 0x1BE5), (0x1C00, 0x1C23), (0x1C40, 0x1C49),
   (0x1C4D, 0x1C7D), (0x1C80, 0x1C88), (0x1C90, 0x1CBA), (0x1CBD, 0x1CBF), (0x1CE9, 0x1CEC),
   (0x1CEE, 0x1CF3), (0x1CF5, 0x1CF6), (0x1CFA, 0x1CFA), (0x1D00, 0x1DBF), (0x1E00, 0x1F15),
   (0x1F18, 0x1F1D), (0x1F20, 0x1F45), (0x1F48, 0x1F4D), (0x1F50, 0x1F57), (0x1F59, 0x1F59),
   (0x1F5B, 0x1F5B), (0x1F5D, 0x1F5D), (0x1F5F, 0x1F7D), (0x1F80, 0x1FB4), (0x1FB6, 0x1FBC),
   (0x1FBE, 0x1FBE), (0x1FC2, 0x1FC4), (0x1FC6, 0x1FCC), (0x1FD0, 0x1FD3), (0x1FD6, 0x1FDB),
   (0x1FE0, 0x1FEC), (0x1FF2, 0x1FF4), (0x1FF6, 0x1FFC), (0x2070, 0x2071), (0x2074, 0x2079),
   (0x207F, 0x2089), (0x2090, 0x209C), (0x2102, 0x2102), (0x2107, 0x2107), (0x210A, 0x2113),
   (0x2115, 0x2115), (0x2119, 0x211D), (0x2124, 0x2124), (0x2126, 0x2126), (0x2128, 0x2128),
   (0x212A, 0x212D), (0x212F, 0x2139), (0x213C, 0x213F), (0x2145, 0x2149), (0x214E, 0x214E),
   (0x2150, 0x2189), (0x2460, 0x249B), (0x24EA, 0x24FF), (0x2776, 0x2793), (0x2C00, 0x2CE4),
   (0x2CEB, 0x2CEE), (0x2CF2, 0x2CF3), (0x2CFD, 0x2CFD), (0x2D00, 0x2D25), (0x2D27, 0x2D27),
   (0x2D2D, 0x2D2D), (0x2D30, 0x2D67), (0x2D6F, 0x2D6F), (0x2D80, 0x2D96), (0x2DA0, 0x2DA6),
   (0x2DA8, 0x2DAE), (0x2DB0, 0x2DB6), (0x2DB8, 0x2DBE), (0x2DC0, 0x2DC6), (0x2DC8, 0x2DCE),
   (0x2DD0, 0x2DD6), (0x2DD8, 0x2DDE), (0x2E2F, 0x2E2F), (0x3005, 0x3007), (0x3021, 0x3029),
   (0x3031, 0x3035), (0x3038, 0x303C), (0x3041, 0x3096), (0x309D, 0x309F), (0x30A1, 0x30FA),
   (0x30FC, 0x30FF), (0x3105, 0x312F), (0x3131, 0x318E), (0x3192, 0x3195), (0x31A0, 0x31BF),
   (0x31F0, 0x31FF), (0x3220, 0x3229), (0x3248, 0x324F), (0x3251, 0x325F), (0x3280, 0x3289),
   (0x32B1, 0x32BF), (0x3400, 0x4DBF), (0x4E00, 0xA48C), (0xA4D0, 0xA4FD), (0xA500, 0xA60C),
   (0xA610, 0xA62B), (0xA640, 0xA66E), (0xA67F, 0xA69D), (0xA6A0, 0xA6EF), (0xA717, 0xA71F),
   (0xA722, 0xA788), (0xA78B, 0xA7CA), (0xA7D0, 0xA7D1), (0xA7D3, 0xA7D3), (0xA7D5, 0xA7D9),
   (0xA7F2, 0xA801), (0xA803, 0xA805), (0xA807, 0xA80A), (0xA80C, 0xA822), (0xA830, 0xA835),
   (0xA840, 0xA873), (0xA882, 0xA8B3), (0xA8D0, 0xA8D9), (0xA8F2, 0xA8F7), (0xA8FB, 0xA8FB),
   (0xA8FD, 0xA8FE), (0xA900, 0xA925), (0xA930, 0xA946), (0xA960, 0xA97C), (0xA984, 0xA9B2),
   (0xA9CF, 0xA9D9), (0xA9E0, 0xA9E4), (0xA9E6, 0xA9FE), (0xAA00, 0xAA28), (0xAA40, 0xAA42),
   (0xAA44, 0xAA4B), (0xAA50, 0xAA59), (0xAA60, 0xAA76), (0xAA7A, 0xAA7A), (0xAA7E, 0xAAAF),
   (0xAAB1, 0xAAB1), (0xAAB5, 0xAAB6), (0xAAB9, 0xAABD), (0xAAC0, 0xAAC0), (0xAAC2, 0xAAC2),
   (0xAADB, 0xAADD), (0xAAE0, 0xAAEA), (0xAAF2, 0xAAF4), (0xAB01, 0xAB06), (0xAB09, 0xAB0E),
   (0xAB11, 0xAB16), (0xAB20, 0xAB26), (0xAB28, 0xAB2E), (0xAB30, 0xAB5A), (0xAB5C, 0xAB69),
   (0xAB70, 0xABE2), (0xABF0, 0xABF9), (0xAC00, 0xD7A3), (0xD7B0, 0xD7C6), (0xD7CB, 0xD7FB),
   (0xF900, 0xFA6D), (0xFA70, 0xFAD9), (0xFB00, 0xFB06), (0xFB13, 0xFB17), (0xFB1D, 0xFB1D),
   (0xFB1F, 0xFB28), (0xFB2A, 0xFB36), (0xFB38, 0xFB3C), (0xFB3E, 0xFB3E), (0xFB40, 0xFB41),
   (0xFB43, 0xFB44), (0xFB46, 0xFBB1), (0xFBD3, 0xFD3D), (0xFD50, 0xFD8F), (0xFD92, 0xFDC7),
   (0xFDF0, 0xFDFB), (0xFE70, 0xFE74), (0xFE76, 0xFEFC), (0xFF10, 0xFF19), (0xFF21, 0xFF3A),
   (0xFF41, 0xFF5A), (0xFF66, 0xFFBE), (0xFFC2, 0xFFC7), (0xFFCA, 0xFFCF), (0xFFD2, 0xFFD7),
   (0xFFDA, 0xFFDC), (0x10000, 0x1000B), (0x1000D, 0x10026), (0x10028, 0x1003A), (0x1003C, 0x1003D),
   (0x1003F, 0x1004D), (0x10050, 0x1005D), (0x10080, 0x100FA), (0x10107, 0x10133), (0x10140, 0x10178),
   (0x1018A, 0x1018B), (0x10280, 0x1029C), (0x102A0, 0x102D0), (0x102E1, 0x102FB), (0x10300, 0x10323),
   (0x1032D, 0x1034A), (0x10350, 0x10375), (0x10380, 0x1039D), (0x103A0, 0x103C3), (0x103C8, 0x103CF),
   (0x103D1, 0x103D5), (0x10400, 0x1049D), (0x104A0, 0x104A9), (0x104B0, 0x104D3), (0x104D8, 0x104FB),
   (0x10500, 0x10527), (0x10530, 0x10563), (0x10570, 0x1057A), (0x1057C, 0x1058A), (0x1058C, 0x10592),
   (0x10594, 0x10595), (0x10597, 0x105A1), (0x105A3, 0x105B1), (0x105B3, 0x105B9), (0x105BB, 0x105BC),
   (0x10600, 0x10736), (0x10740, 0x10755), (0x10760, 0x10767), (0x10780, 0x10785), (0x10787, 0x107B0),
   (0x107B2, 0x107BA), (0x10800, 0x10805), (0x10808, 0x10808), (0x1080A, 0x10835), (0x10837, 0x10838),
   (0x1083C, 0x1083C), (0x1083F, 0x10855), (0x10858, 0x10876), (0x10879, 0x1089E), (0x108A7, 0x108AF),
   (0x108E0, 0x108F2), (0x108F4, 0x108F5), (0x108FB, 0x1091B), (0x10920, 0x10939), (0x10980, 0x109B7),
   (0x109BC, 0x109CF), (0x109D2, 0x10A00), (0x10A10, 0x10A13), (0x10A15, 0x10A17), (0x10A19, 0x10A35),
   (0x10A40, 0x10A48), (0x10A60, 0x10A7E), (0x10A80, 0x10A9F), (0x10AC0, 0x10AC7), (0x10AC9, 0x10AE4),
   (0x10AEB, 0x10AEF), (0x10B00, 0x10B35), (0x10B40, 0x10B55), (0x10B58, 0x10B72), (0x10B78, 0x10B91),
   (0x10BA9, 0x10BAF), (0x10C00, 0x10C48), (0x10C80, 0x10CB2), (0x10CC0, 0x10CF2), (0x10CFA, 0x10D23),
   (0x10D30, 0x10D39), (0x10E60, 0x10E7E), (0x10E80, 0x10EA9), (0x10EB0, 0x10EB1), (0x10F00, 0x10F27),
   (0x10F30, 0x10F45), (0x10F51, 0x10F54), (0x10F70, 0x10F81), (0x10FB0, 0x10FCB), (0x10FE0, 0x10FF6),
   (0x11003, 0x11037), (0x11052, 0x1106F), (0x11071, 0x11072), (0x11075, 0x11075), (0x11083, 0x110AF),
   (0x110D0, 0x110E8), (0x110F0, 0x110F9), (0x11103, 0x11126), (0x11136, 0x1113F), (0x11144, 0x11144),
   (0x11147, 0x11147), (0x11150, 0x11172), (0x11176, 0x11176), (0x11183, 0x111B2), (0x111C1, 0x111C4),
   (0x111D0, 0x111DA), (0x111DC, 0x111DC), (0x111E1, 0x111F4), (0x11200, 0x11211), (0x11213, 0x1122B),
   (0x11280, 0x11286), (0x11288, 0x11288), (0x1128A, 0x1128D), (0x1128F, 0x1129D), (0x1129F, 0x112A8),
   (0x112B0, 0x112DE), (0x112F0, 0x112F9), (0x11305, 0x1130C), (0x1130F, 0x11310), (0x11313, 0x11328),
   (0x1132A, 0x11330), (0x11332, 0x11333), (0x11335, 0x11339), (0x1133D, 0x1133D), (0x11350, 0x11350),
   (0x1135D, 0x11361), (0x11400, 0x11434), (0x11447, 0x1144A), (0x11450, 0x11459), (0x1145F, 0x11461),
   (0x11480, 0x114AF), (0x114C4, 0x114C5), (0x114C7, 0x114C7), (0x114D0, 0x114D9), (0x11580, 0x115AE),
   (0x115D8, 0x115DB), (0x11600, 0x1162F), (0x11644, 0x11644), (0x11650, 0x11659), (0x11680, 0x116AA),
   (0x116B8, 0x116B8), (0x116C0, 0x116C9), (0x11700, 0x1171A), (0x11730, 0x1173B), (0x11740, 0x11746),
   (0x11800, 0x1182B), (0x118A0, 0x118F2), (0x118FF, 0x11906), (0x11909, 0x11909), (0x1190C, 0x11913),
   (0x11915, 0x11916), (0x11918, 0x1192F), (0x1193F, 0x1193F), (0x11941, 0x11941), (0x11950, 0x11959),
   (0x119A0, 0x119A7), (0x119AA, 0x119D0), (0x119E1, 0x119E1), (0x119E3, 0x119E3), (0x11A00, 0x11A00),
   (0x11A0B, 0x11A32), (0x11A3A, 0x11A3A), (0x11A50, 0x11A50), (0x11A5C, 0x11A89), (0x11A9D, 0x11A9D),
   (0x11AB0, 0x11AF8), (0x11C00, 0x11C08), (0x11C0A, 0x11C2E), (0x11C40, 0x11C40), (0x11C50, 0x11C6C),
   (0x11C72, 0x11C8F), (0x11D00, 0x11D06), (0x11D08, 0x11D09), (0x11D0B, 0x11D30), (0x11D46, 0x11D46),
   (0x11D50, 0x11D59), (0x11D60, 0x11D65), (0x11D67, 0x11D68), (0x11D6A, 0x11D89), (0x11D98, 0x11D98),
   (0x11DA0, 0x11DA9), (0x11EE0, 0x11EF2), (0x11FB0, 0x11FB0), (0x11FC0, 0x11FD4), (0x12000, 0x12399),
   (0x12400, 0x1246E), (0x12480, 0x12543), (0x12F90, 0x12FF0), (0x13000, 0x1342E), (0x14400, 0x14646),
   (0x16800, 0x16A38), (0x16A40, 0x16A5E), (0x16A60, 0x16A69), (0x16A70, 0x16ABE), (0x16AC0, 0x16AC9),
   (0x16AD0, 0x16AED), (0x16B00, 0x16B2F), (0x16B40, 0x16B43), (0x16B50, 0x16B59), (0x16B5B, 0x16B61),
   (0x16B63, 0x16B77), (0x16B7D, 0x16B8F), (0x16E40, 0x16E96), (0x16F00, 0x16F4A), (0x16F50, 0x16F50),
   (0x16F93, 0x16F9F), (0x16FE0, 0x16FE1), (0x16FE3, 0x16FE3), (0x17000, 0x187F7), (0x18800, 0x18CD5),
   (0x18D00, 0x18D08), (0x1AFF0, 0x1AFF3), (0x1AFF5, 0x1AFFB), (0x1AFFD, 0x1AFFE), (0x1B000, 0x1B122),
   (0x1B150, 0x1B152), (0x1B164, 0x1B167), (0x1B170, 0x1B2FB), (0x1BC00, 0x1BC6A), (0x1BC70, 0x1BC7C),
   (0x1BC80, 0x1BC88), (0x1BC90, 0x1BC99), (0x1D2E0, 0x1D2F3), (0x1D360, 0x1D378), (0x1D400, 0x1D454),
   (0x1D456, 0x1D49C), (0x1D49E, 0x1D49F), (0x1D4A2, 0x1D4A2), (0x1D4A5, 0x1D4A6), (0x1D4A9, 0x1D4AC),
   (0x1D4AE, 0x1D4B9), (0x1D4BB, 0x1D4BB), (0x1D4BD, 0x1D4C3), (0x1D4C5, 0x1D505), (0x1D507, 0x1D50A),
   (0x1D50D, 0x1D514), (0x1D516, 0x1D51C), (0x1D51E, 0x1D539), (0x1D53B, 0x1D53E), (0x1D540, 0x1D544),
   (0x1D546, 0x1D546), (0x1D54A, 0x1D550), (0x1D552, 0x1D6A5), (0x1D6A8, 0x1D6C0), (0x1D6C2, 0x1D6DA),
   (0x1D6DC, 0x1D6FA), (0x1D6FC, 0x1D714), (0x1D716, 0x1D734), (0x1D736, 0x1D74E), (0x1D750, 0x1D76E),
   (0x1D770, 0x1D788), (0x1D78A, 0x1D7A8), (0x1D7AA, 0x1D7C2), (0x1D7C4, 0x1D7CB), (0x1D7CE, 0x1D7FF),
   (0x1DF00, 0x1DF1E), (0x1E100, 0x1E12C), (0x1E137, 0x1E13D), (0x1E140, 0x1E149), (0x1E14E, 0x1E14E),
   (0x1E290, 0x1E2AD), (0x1E2C0, 0x1E2EB), (0x1E2F0, 0x1E2F9), (0x1E7E0, 0x1E7E6), (0x1E7E8, 0x1E7EB),
   (0x1E7ED, 0x1E7EE), (0x1E7F0, 0x1E7FE), (0x1E800, 0x1E8C4), (0x1E8C7, 0x1E8CF), (0x1E900, 0x1E943),
   (0x1E94B, 0x1E94B), (0x1E950, 0x1E959), (0x1EC71, 0x1ECAB), (0x1ECAD, 0x1ECAF), (0x1ECB1, 0x1ECB4),
   (0x1ED01, 0x1ED2D), (0x1ED2F, 0x1ED3D), (0x1EE00, 0x1EE03), (0x1EE05, 0x1EE1F), (0x1EE21, 0x1EE22),
   (0x1EE24, 0x1EE24), (0x1EE27, 0x1EE27), (0x1EE29, 0x1EE32), (0x1EE34, 0x1EE37), (0x1EE39, 0x1EE39),
   (0x1EE3B, 0x1EE3B), (0x1EE42, 0x1EE42), (0x1EE47, 0x1EE47), (0x1EE49, 0x1EE49), (0x1EE4B, 0x1EE4B),
   (0x1EE4D, 0x1EE4F), (0x1EE51, 0x1EE52), (0x1EE54, 0x1EE54), (0x1EE57, 0x1EE57), (0x1EE59, 0x1EE59),
   (0x1EE5B, 0x1EE5B), (0x1EE5D, 0x1EE5D), (0x1EE5F, 0x1EE5F), (0x1EE61, 0x1EE62), (0x1EE64, 0x1EE64),
   (0x1EE67, 0x1EE6A), (0x1EE6C, 0x1EE72), (0x1EE74, 0x1EE77), (0x1EE79, 0x1EE7C), (0x1EE7E, 0x1EE7E),
   (0x1EE80, 0x1EE89), (0x1EE8B, 0x1EE9B), (0x1EEA1, 0x1EEA3), (0x1EEA5, 0x1EEA9), (0x1EEAB, 0x1EEBB),
   (0x1F100, 0x1F10C), (0x1FBF0, 0x1FBF9), (0x20000, 0x2A6DF), (0x2A700, 0x2B738), (0x2B740, 0x2B81D),
   (0x2B820, 0x2CEA1), (0x2CEB0, 0x2EBE0), (0x2F800, 0x2FA1D), (0x30000, 0x3134A)]

/-- Word-character test backing the `\b` boundaries of the acronym pattern:
membership of the code point in `wordCodeRanges`, i.e. Python's `\w`. -/
def isWordChar (c : Char) : Bool :=
  wordCodeRanges.any (fun r => r.1 ≤ c.toNat && c.toNat ≤ r.2)

/-- Uppercase ASCII letter test, the class `[A-Z]` of the acronym pattern. -/
def isUpperAscii (c : Char) : Bool := 0x41 ≤ c.toNat && c.toNat ≤ 0x5A

/-- Length of the leading run of uppercase ASCII letters. -/
def acrRun (s : List Char) : Nat := (s.takeWhile isUpperAscii).length

/-- The trailing `\b` test of the acronym pattern: after the leading
uppercase run, the input either ends or continues with a non-word
character. -/
def boundAfter (s : List Char) : Bool :=
  match s.dropWhile isUpperAscii with
  | [] => true
  | b :: _ => !isWordChar b

/-- Scanner for `re.sub(r'\b[A-Z]{2,5}\b', '', s)`.  A match of this pattern
is exactly a maximal uppercase-ASCII run of length 2 to 5 whose neighbours
(in the original string) are absent or non-word: the leading `\b` is
tracked by `prevWord`, the wordness of the previously scanned character,
and the run and its trailing boundary are read off with `acrRun` /
`boundAfter`.  `deleting` is true while the remainder of a matched run is
being skipped. -/
def stripAcronymsGo (deleting prevWord : Bool) : List Char → List Char
  | [] => []
  | x :: xs =>
    if deleting then
      if isUpperAscii x then stripAcronymsGo true true xs
      else x :: stripAcronymsGo false (isWordChar x) xs
    else
      if !prevWord && isUpperAscii x && decide (2 ≤ acrRun (x :: xs)) &&
          decide (acrRun (x :: xs) ≤ 5) && boundAfter (x :: xs) then
        stripAcronymsGo true true xs
      else x :: stripAcronymsGo false (isWordChar x) xs

/-- The acronym-removal pass `re.sub(r'\b[A-Z]{2,5}\b', '', s)`. -/
def stripAcronyms (s : List Char) : List Char :=
  stripAcronymsGo false false s

/-- Scanner for `re.sub(r'\s+', ' ', s)`: each whitespace run becomes one
ASCII space.  `inRun` is true while inside a whitespace run whose
replacement space was already emitted. -/
def collapseGo (inRun : Bool) : List Char → List Char
  | [] => []
  | x :: xs =>
    if isSpace x then
      if inRun then collapseGo true xs else ' ' :: collapseGo true xs
    else x :: collapseGo false xs

/-- The whitespace-collapsing pass `re.sub(r'\s+', ' ', s)`. -/
def collapseWs (s : List Char) : List Char := collapseGo false s

/-- The candidate fragment of `extract_first_sentence_for_detection` right
before the stripping steps: trimmed input, cut at the first delimiter, then
hard-truncated to `maxChars`. -/
def candidateOf (text : List Char) (maxChars : Nat) : List Char :=
  truncateTo maxChars (firstSentenceCut (pyStrip text))

/-- `extract_first_sentence_for_detection(text, max_chars = 50)`. -/
def extract_first_sentence_for_detection (text : List Char)
    (maxChars : Nat := 50) : List Char :=
  if text.isEmpty || (pyStrip text).isEmpty then []
  else
    pyStrip (collapseWs (stripAcronyms (stripAllQuotes (candidateOf text maxChars))))

/-! ## Reference (spec-side) definitions

These definitions transcribe the claims' reference descriptions, to be
compared with the source-side definitions above. -/

/-- Reference classifier of claim C1: per-class counts obtained by counting
each character class independently with `countP`, total the length, the
ratio tests written with exact rational division, and the same
first-match-wins chain. -/
def detectSpec (text : List Char) : Option Language :=
  if text.all isSpace then none
  else
    let total : Nat := text.length
    let hira := text.countP isHiragana
    let kata := text.countP isKatakana
    let kanji := text.countP isKanji
    let vu := text.countP (fun c => vietnameseUnique.contains c)
    let vc := text.countP (fun c => vietnameseCommon.contains c)
    let al := text.countP isAsciiAlpha
    if ((hira : ℚ) + kata) / total > 0.05 then some .Japanese
    else if (kanji : ℚ) / total > 0.5 then some .Japanese
    else if 1 ≤ vu then some .Vietnamese
    else if 1 ≤ vc then some .Vietnamese
    else if (al : ℚ) / total > 0.5 then some .English
    else if 0 < al then some .English
    else none

/-- The `char_counts` record accumulated by `detect_language`. -/
def countsOf (text : List Char) : CharCounts :=
  text.foldl updateCounts ⟨0, 0, 0, 0, 0, 0, 0⟩

/-! ## Reference data for claim C8 -/

/-- Tier-1 set as claim C8 describes it: the base letters ă, đ, ơ, ư and
their tone-marked forms, in upper and lower case, and nothing else. -/
def claimedTier1 : List Char :=
  ("ăđơưĂĐƠƯ" ++ "ắằẳẵặ" ++ "ớờởỡợ" ++ "ứừửữự" ++
   "ẮẰẲẴẶ" ++ "ỚỜỞỠỢ" ++ "ỨỪỬỮỰ").toList

/-- Tier-1 set as the source actually has it: the claimed characters plus
the tone-marked forms of â and ô (which carry Vietnamese-specific
circumflex-plus-tone combinations but are not forms of ă, đ, ơ or ư). -/
def amendedTier1 : List Char :=
  claimedTier1 ++ ("ấầẩẫậ" ++ "ốồổỗộ" ++ "ẤẦẨẪẬ" ++ "ỐỒỔỖỘ").toList

/-- The input of claim C7: `What is 'machine learning'? second sentence`. -/
def c7Input : List Char :=
  ("What is ").toList ++ [squoteChar] ++ ("machine learning").toList ++
    [squoteChar] ++ ("? second sentence").toList

/-! ## Claim C2: the extractor against its reference pipeline -/

/-- Left curly double quote U+201C (named by claim C2, absent from the
source's patterns). -/
def ldquoChar : Char := Char.ofNat 0x201C

/-- Right curly double quote U+201D. -/
def rdquoChar : Char := Char.ofNat 0x201D

/-- The pattern list as claim C2 states it: ASCII double quotes, ASCII
single quotes, Japanese corner brackets, white corner brackets, curly
double quotes, curly single quotes. -/
def claimedQuotePatterns : List (Char × Char) :=
  [(dquoteChar, dquoteChar), (squoteChar, squoteChar),
   ('「', '」'), ('『', '』'),
   (ldquoChar, rdquoChar), (lsquoChar, rsquoChar)]

/-- The pattern list as the source actually has it: the fifth entry is the
ASCII double-quote pattern again, not curly double quotes. -/
def amendedQuotePatterns : List (Char × Char) :=
  [(dquoteChar, dquoteChar), (squoteChar, squoteChar),
   ('「', '」'), ('『', '』'),
   (dquoteChar, dquoteChar), (lsquoChar, rsquoChar)]

/-- The leading-prefix step as claim C2 words it: the prefix up to and
including the earliest character that is a newline or a `.`, or the whole
text when neither occurs. -/
def delimCut (t : List Char) : List Char :=
  match t.findIdx? (fun ch => ch = newlineChar || ch = periodChar) with
  | none => t
  | some i => t.take (i + 1)

/-- The reference pipeline exactly as claim C2 states it (with curly double
quotes as the fifth pattern). -/
def specExtractClaimed (text : List Char) (maxChars : Nat) : List Char :=
  if text.all isSpace then []
  else
    pyStrip (collapseWs (stripAcronyms (claimedQuotePatterns.foldl
      (fun acc oc => stripPairs oc.1 oc.2 acc)
      (truncateTo maxChars (delimCut (pyStrip text))))))

/-- The reference pipeline amended at the fifth pattern only. -/
def specExtractAmended (text : List Char) (maxChars : Nat) : List Char :=
  if text.all isSpace then []
  else
    pyStrip (collapseWs (stripAcronyms (amendedQuotePatterns.foldl
      (fun acc oc => stripPairs oc.1 oc.2 acc)
      (truncateTo maxChars (delimCut (pyStrip text))))))

/-- Right-strip: drop the trailing run of `p`-characters. -/
def rdrop (p : Char → Bool) (t : List Char) : List Char :=
  (t.reverse.dropWhile p).reverse

/-- `hasPair o c u` holds when `u` contains an occurrence of the opener `o`
with the closer `c` somewhere after it — exactly when the pattern
`o [^c]* c` has a match in `u`. -/
def hasPair (o c : Char) : List Char → Bool
  | [] => false
  | x :: xs => if x = o then xs.contains c else hasPair o c xs

/-- `hasAcr prev u` holds when the acronym pattern `\b[A-Z]{2,5}\b` has a
match in `u`, scanning with `prev` the wordness of the character before
`u`: a match is a maximal uppercase run of length 2 to 5 with non-word (or
absent) neighbours. -/
def hasAcr : Bool → List Char → Bool
  | _, [] => false
  | prev, x :: xs =>
    if !prev && isUpperAscii x && decide (2 ≤ acrRun (x :: xs)) &&
        decide (acrRun (x :: xs) ≤ 5) && boundAfter (x :: xs) then true
    else hasAcr (isWordChar x) xs

/-- A string is collapsed when its only whitespace is single ASCII spaces
never preceded by other whitespace — exactly the strings on which
`re.sub(r'\s+', ' ', ·)` is the identity.  `inRun` mirrors `collapseGo`:
it records whether the previous character was whitespace. -/
def collapsedGo (inRun : Bool) : List Char → Bool
  | [] => true
  | x :: xs =>
    if isSpace x then (!inRun && decide (x = ' ')) && collapsedGo true xs
    else collapsedGo false xs

/-- Strings on which whitespace collapsing is the identity. -/
def collapsed (s : List Char) : Bool := collapsedGo false s

/-- `tailFree p u` holds when no character of `u` except possibly the last
one satisfies `p`. -/
def tailFree (p : Char → Bool) : List Char → Bool
  | [] => true
  | [_] => true
  | x :: y :: ys => !p x && tailFree p (y :: ys)

/-! ## Character-class facts -/

theorem isKatakana_not_hiragana {c : Char} (h : isKatakana c = true) :
    isHiragana c = false := by
  simp only [isKatakana, Bool.and_eq_true, decide_eq_true_eq] at h
  simp only [isHiragana, Bool.and_eq_false_iff, decide_eq_false_iff_not]
  omega

theorem isKanji_not_kana {c : Char} (h : isKanji c = true) :
    isHiragana c = false ∧ isKatakana c = false := by
  simp only [isKanji, Bool.and_eq_true, decide_eq_true_eq] at h
  simp only [isHiragana, isKatakana, Bool.and_eq_false_iff,
    decide_eq_false_iff_not]
  omega

theorem vietnameseUnique_range :
    ∀ c ∈ vietnameseUnique, 0x100 ≤ c.toNat ∧ c.toNat < 0x2000 := by decide

theorem vietnameseCommon_range :
    ∀ c ∈ vietnameseCommon, 0x100 ≤ c.toNat ∧ c.toNat < 0x2000 := by decide

theorem vietnameseUnique_not_common :
    ∀ c ∈ vietnameseUnique, c ∉ vietnameseCommon := by decide

theorem latinRange_not_cjk {c : Char} (h : 0x100 ≤ c.toNat ∧ c.toNat < 0x2000) :
    isHiragana c = false ∧ isKatakana c = false ∧ isKanji c = false := by
  simp only [isHiragana, isKatakana, isKanji, Bool.and_eq_false_iff,
    decide_eq_false_iff_not]
  omega

theorem isAsciiAlpha_lt (c : Char) (h : isAsciiAlpha c = true) : c.toNat < 128 := by
  simp only [isAsciiAlpha, Bool.or_eq_true, Bool.and_eq_true, decide_eq_true_eq] at h
  omega

theorem isAsciiAlpha_not_other {c : Char} (h : isAsciiAlpha c = true) :
    isHiragana c = false ∧ isKatakana c = false ∧ isKanji c = false ∧
      vietnameseUnique.contains c = false ∧ vietnameseCommon.contains c = false := by
  have hlt := isAsciiAlpha_lt c h
  refine ⟨?_, ?_, ?_, ?_, ?_⟩
  · simp only [isHiragana, Bool.and_eq_false_iff, decide_eq_false_iff_not]; omega
  · simp only [isKatakana, Bool.and_eq_false_iff, decide_eq_false_iff_not]; omega
  · simp only [isKanji, Bool.and_eq_false_iff, decide_eq_false_iff_not]; omega
  · rw [Bool.eq_false_iff]
    intro hc
    have := vietnameseUnique_range c (by simpa using hc)
    omega
  · rw [Bool.eq_false_iff]
    intro hc
    have := vietnameseCommon_range c (by simpa using hc)
    omega

/-! ## The count accumulator agrees with independent `countP` counts -/

theorem updateCounts_eq (cc : CharCounts) (c : Char) :
    updateCounts cc c =
      ⟨cc.hiragana + (if isHiragana c then 1 else 0),
       cc.katakana + (if isKatakana c then 1 else 0),
       cc.kanji + (if isKanji c then 1 else 0),
       cc.vietnamese_unique + (if vietnameseUnique.contains c then 1 else 0),
       cc.vietnamese_common + (if vietnameseCommon.contains c then 1 else 0),
       cc.ascii + (if isAsciiAlpha c then 1 else 0),
       cc.total + 1⟩ := by
  by_cases h1 : isHiragana c = true
  · have h2 : isKatakana c = false := by
      rw [Bool.eq_false_iff]; intro h; simp [isKatakana_not_hiragana h] at h1
    have h3 : isKanji c = false := by
      rw [Bool.eq_false_iff]; intro h; simp [(isKanji_not_kana h).1] at h1
    have h4 : c ∉ vietnameseUnique := by
      intro h
      have := latinRange_not_cjk (vietnameseUnique_range c h)
      simp [this.1] at h1
    have h5 : c ∉ vietnameseCommon := by
      intro h
      have := latinRange_not_cjk (vietnameseCommon_range c h)
      simp [this.1] at h1
    have h6 : isAsciiAlpha c = false := by
      rw [Bool.eq_false_iff]; intro h
      simp [(isAsciiAlpha_not_other h).1] at h1
    simp [updateCounts, h1, h2, h3, h4, h5, h6]
  · by_cases h2 : isKatakana c = true
    · have h3 : isKanji c = false := by
        rw [Bool.eq_false_iff]; intro h; simp [(isKanji_not_kana h).2] at h2
      have h4 : c ∉ vietnameseUnique := by
        intro h
        have := latinRange_not_cjk (vietnameseUnique_range c h)
        simp [this.2.1] at h2
      have h5 : c ∉ vietnameseCommon := by
        intro h
        have := latinRange_not_cjk (vietnameseCommon_range c h)
        simp [this.2.1] at h2
      have h6 : isAsciiAlpha c = false := by
        rw [Bool.eq_false_iff]; intro h
        simp [(isAsciiAlpha_not_other h).2.1] at h2
      simp [updateCounts, h1, h2, h3, h4, h5, h6]
    · by_cases h3 : isKanji c = true
      · have h4 : c ∉ vietnameseUnique := by
          intro h
          have := latinRange_not_cjk (vietnameseUnique_range c h)
          simp [this.2.2] at h3
        have h5 : c ∉ vietnameseCommon := by
          intro h
          have := latinRange_not_cjk (vietnameseCommon_range c h)
          simp [this.2.2] at h3
        have h6 : isAsciiAlpha c = false := by
          rw [Bool.eq_false_iff]; intro h
          simp [(isAsciiAlpha_not_other h).2.2.1] at h3
        simp [updateCounts, h1, h2, h3, h4, h5, h6]
      · by_cases h4 : c ∈ vietnameseUnique
        · have h5 : c ∉ vietnameseCommon := by
            intro h
            exact vietnameseUnique_not_common c h4 h
          have h6 : isAsciiAlpha c = false := by
            rw [Bool.eq_false_iff]; intro h
            have := (isAsciiAlpha_not_other h).2.2.2.1
            simp [h4] at this
          simp [updateCounts, h1, h2, h3, h4, h5, h6]
        · by_cases h5 : c ∈ vietnameseCommon
          · have h6 : isAsciiAlpha c = false := by
              rw [Bool.eq_false_iff]; intro h
              have := (isAsciiAlpha_not_other h).2.2.2.2
              simp [h5] at this
            simp [updateCounts, h1, h2, h3, h4, h5, h6]
          · by_cases h6 : isAsciiAlpha c = true
            · simp [updateCounts, h1, h2, h3, h4, h5, h6, isAsciiAlpha_lt c h6]
            · simp [updateCounts, h1, h2, h3, h4, h5, h6]

theorem foldl_updateCounts (text : List Char) (cc : CharCounts) :
    text.foldl updateCounts cc =
      ⟨cc.hiragana + text.countP isHiragana,
       cc.katakana + text.countP isKatakana,
       cc.kanji + text.countP isKanji,
       cc.vietnamese_unique + text.countP (fun c => vietnameseUnique.contains c),
       cc.vietnamese_common + text.countP (fun c => vietnameseCommon.contains c),
       cc.ascii + text.countP isAsciiAlpha,
       cc.total + text.length⟩ := by
  induction text generalizing cc with
  | nil => simp
  | cons x xs ih =>
    rw [List.foldl_cons, ih, updateCounts_eq]
    simp only [List.countP_cons, List.length_cons, CharCounts.mk.injEq]
    refine ⟨?_, ?_, ?_, ?_, ?_, ?_, by omega⟩ <;> · split <;> omega

theorem countsOf_eq (text : List Char) :
    countsOf text =
      ⟨text.countP isHiragana, text.countP isKatakana, text.countP isKanji,
       text.countP (fun c => vietnameseUnique.contains c),
       text.countP (fun c => vietnameseCommon.contains c),
       text.countP isAsciiAlpha, text.length⟩ := by
  rw [countsOf, foldl_updateCounts]
  simp

/-! ## Emptiness guard -/

theorem all_dropWhile_iff (p : Char → Bool) (t : List Char) :
    (∀ x ∈ t.dropWhile p, p x = true) ↔ ∀ x ∈ t, p x = true := by
  constructor
  · intro h x hx
    rcases List.mem_append.mp ((List.takeWhile_append_dropWhile (p := p) (l := t)) ▸ hx) with h1 | h2
    · exact List.mem_takeWhile_imp h1
    · exact h x h2
  · intro h x hx
    exact h x (List.dropWhile_sublist p |>.mem hx)

theorem pyStrip_eq_nil_iff (t : List Char) :
    pyStrip t = [] ↔ t.all isSpace = true := by
  rw [pyStrip, List.reverse_eq_nil_iff, List.dropWhile_eq_nil_iff, List.all_eq_true]
  constructor
  · intro h
    rw [← all_dropWhile_iff isSpace t]
    intro x hx
    exact h x (List.mem_reverse.mpr hx)
  · intro h x hx
    exact (all_dropWhile_iff isSpace t).mpr h x (List.mem_reverse.mp hx)

/-- The guards `if not text or not text.strip()` of both functions test
exactly "empty or whitespace-only". -/
theorem detect_guard (text : List Char) :
    (text.isEmpty || (pyStrip text).isEmpty) = text.all isSpace := by
  by_cases h : text.all isSpace = true
  · simp [h, List.isEmpty_iff, (pyStrip_eq_nil_iff text).mpr h]
  · rw [Bool.not_eq_true] at h
    rw [h, Bool.or_eq_false_iff]
    constructor
    · rw [List.isEmpty_eq_false_iff_exists_mem]
      rw [Bool.eq_false_iff, Ne, List.all_eq_true] at h
      push_neg at h
      exact ⟨h.choose, h.choose_spec.1⟩
    · rw [List.isEmpty_eq_false_iff_exists_mem]
      by_contra hc
      push_neg at hc
      have : pyStrip text = [] := List.eq_nil_iff_forall_not_mem.mpr hc
      rw [pyStrip_eq_nil_iff] at this
      rw [this] at h
      simp at h

theorem not_all_space_length_pos {text : List Char}
    (h : ¬ text.all isSpace = true) : 0 < text.length := by
  rcases text with _ | ⟨x, xs⟩
  · simp at h
  · simp

/-! ## `detect_language` agrees with the reference classifier -/

theorem detect_language_eq_spec (text : List Char) :
    detect_language text = detectSpec text := by
  rw [detect_language, detectSpec,
    show (text.foldl updateCounts ⟨0, 0, 0, 0, 0, 0, 0⟩) = countsOf text from rfl,
    countsOf_eq, detect_guard]
  by_cases hall : text.all isSpace = true
  · simp [hall]
  · rw [Bool.not_eq_true] at hall
    rw [hall]
    simp only [Bool.false_eq_true, if_false]
    have hpos : 0 < text.length := not_all_space_length_pos (by simp [hall])
    have hlen : (0 : ℚ) < (text.length : ℚ) := by exact_mod_cast hpos
    have e1 : ((text.countP isHiragana : ℚ) + (text.countP isKatakana : ℚ)) /
          (text.length : ℚ) > 0.05 ↔
        20 * (text.countP isHiragana + text.countP isKatakana) > text.length := by
      rw [gt_iff_lt, show (0.05 : ℚ) = 1 / 20 by norm_num,
        div_lt_div_iff₀ (by norm_num) hlen, one_mul]
      constructor
      · intro h
        have : text.length <
            (text.countP isHiragana + text.countP isKatakana) * 20 := by
          exact_mod_cast h
        omega
      · intro h
        have : text.length <
            (text.countP isHiragana + text.countP isKatakana) * 20 := by omega
        exact_mod_cast this
    have e2 : (text.countP isKanji : ℚ) / (text.length : ℚ) > 0.5 ↔
        2 * text.countP isKanji > text.length := by
      rw [gt_iff_lt, show (0.5 : ℚ) = 1 / 2 by norm_num,
        div_lt_div_iff₀ (by norm_num) hlen, one_mul]
      constructor
      · intro h
        have : text.length < text.countP isKanji * 2 := by exact_mod_cast h
        omega
      · intro h
        have : text.length < text.countP isKanji * 2 := by omega
        exact_mod_cast this
    have e3 : (text.countP isAsciiAlpha : ℚ) / (text.length : ℚ) > 0.5 ↔
        2 * text.countP isAsciiAlpha > text.length := by
      rw [gt_iff_lt, show (0.5 : ℚ) = 1 / 2 by norm_num,
        div_lt_div_iff₀ (by norm_num) hlen, one_mul]
      constructor
      · intro h
        have : text.length < text.countP isAsciiAlpha * 2 := by exact_mod_cast h
        omega
      · intro h
        have : text.length < text.countP isAsciiAlpha * 2 := by omega
        exact_mod_cast this
    simp only [e1, e2, e3, if_neg (by omega : ¬ text.length = 0)]

theorem vietnameseUnique_not_space : ∀ c ∈ vietnameseUnique, isSpace c = false := by
  decide

theorem isAsciiAlpha_not_space {c : Char} (h : isAsciiAlpha c = true) :
    isSpace c = false := by
  simp only [isAsciiAlpha, Bool.or_eq_true, Bool.and_eq_true, decide_eq_true_eq] at h
  rw [Bool.eq_false_iff]
  intro hs
  have hm : c.toNat ∈ pythonWhitespace := by simpa [isSpace] using hs
  simp only [pythonWhitespace, List.mem_cons, List.not_mem_nil, or_false] at hm
  omega

/-- Unfolded form of `detect_language` in terms of the independent counts. -/
theorem detect_language_via_counts (text : List Char) :
    detect_language text =
      if text.all isSpace then none
      else
        if text.length = 0 then none
        else if 20 * (text.countP isHiragana + text.countP isKatakana) >
            text.length then some .Japanese
        else if 2 * text.countP isKanji > text.length then some .Japanese
        else if 1 ≤ text.countP (fun c => vietnameseUnique.contains c) then
          some .Vietnamese
        else if 1 ≤ text.countP (fun c => vietnameseCommon.contains c) then
          some .Vietnamese
        else if 2 * text.countP isAsciiAlpha > text.length then some .English
        else if 0 < text.countP isAsciiAlpha then some .English
        else none := by
  rw [detect_language,
    show (text.foldl updateCounts ⟨0, 0, 0, 0, 0, 0, 0⟩) = countsOf text from rfl,
    countsOf_eq, detect_guard]

/-! ## Claims C1, C3, C4, C5, C8, C9 -/

/-- C1: for every string `text`, `detect_language text` equals the reference
classifier `detectSpec`: guard for empty/whitespace-only input, independent
per-class counts over the six character classes with `total` the number of
characters, and the first-match-wins chain Japanese (kana ratio > 0.05),
Japanese (kanji ratio > 0.5), Vietnamese (a tier-1 character), Vietnamese
(a tier-2 character), English (ASCII-letter ratio > 0.5), English (any
ASCII letter), undetermined. -/
theorem claim_C1_detect_language_matches_reference :
    ∀ text : List Char, detect_language text = detectSpec text :=
  detect_language_eq_spec

/-- C3 counterexample: the two-character text `ăあ` contains the tier-1
Vietnamese character `ă`, yet `detect_language` returns Japanese (the kana
branch fires first), not Vietnamese — refuting the claim that any tier-1
character anywhere forces the result Vietnamese. -/
theorem claim_C3_counterexample :
    ('ă' ∈ vietnameseUnique) ∧ ('ă' ∈ ("ăあ").toList) ∧
      detect_language (("ăあ").toList) = some .Japanese ∧
      detect_language (("ăあ").toList) ≠ some .Vietnamese := by
  refine ⟨by decide, by decide, by decide, by decide⟩

/-- C3, amended: if the text contains a tier-1 Vietnamese character and
neither Japanese branch fires (hiragana+katakana at most 5 percent and
kanji at most half of all characters), then `detect_language` returns
Vietnamese, no matter how dominant ASCII letters are. -/
theorem claim_C3_amended_tier1_forces_vietnamese (text : List Char)
    (hmem : ∃ c ∈ text, c ∈ vietnameseUnique)
    (hkana : 20 * (text.countP isHiragana + text.countP isKatakana) ≤ text.length)
    (hkanji : 2 * text.countP isKanji ≤ text.length) :
    detect_language text = some Language.Vietnamese := by
  obtain ⟨c, hc, hcu⟩ := hmem
  have hall : text.all isSpace = false := by
    rw [Bool.eq_false_iff, Ne, List.all_eq_true]
    intro h
    have := h c hc
    rw [vietnameseUnique_not_space c hcu] at this
    simp at this
  have hpos : 0 < text.length := List.length_pos.mpr (by rintro rfl; simp at hc)
  have hvu : 1 ≤ text.countP (fun c => vietnameseUnique.contains c) := by
    rw [Nat.one_le_iff_ne_zero, Ne, List.countP_eq_zero]
    push_neg
    exact ⟨c, hc, by simpa using hcu⟩
  rw [detect_language_via_counts, hall]
  simp only [Bool.false_eq_true, if_false]
  rw [if_neg (by omega), if_neg (by omega), if_neg (by omega), if_pos hvu]

/-- C3 amended, witness: the single character `ă` satisfies all three
hypotheses and is classified Vietnamese. -/
theorem claim_C3_amended_witness :
    (∃ c ∈ ("ă").toList, c ∈ vietnameseUnique) ∧
      detect_language (("ă").toList) = some Language.Vietnamese :=
  ⟨by decide, claim_C3_amended_tier1_forces_vietnamese (("ă").toList)
    (by decide) (by decide) (by decide)⟩

/-- C4: an empty or whitespace-only input makes `detect_language` return the
undetermined sentinel and `extract_first_sentence_for_detection` return the
empty string (for any bound), with no error. -/
theorem claim_C4_whitespace_only_inputs (text : List Char) (maxChars : Nat)
    (h : text.all isSpace = true) :
    detect_language text = none ∧
      extract_first_sentence_for_detection text maxChars = [] := by
  constructor
  · rw [detect_language_via_counts, h, if_pos rfl]
  · rw [extract_first_sentence_for_detection, detect_guard, h, if_pos rfl]

/-- C4 witness: the three-character text of a space, a tab and a newline. -/
theorem claim_C4_witness :
    ((" " ++ "\t" ++ "\n").toList.all isSpace = true) ∧
      detect_language ((" " ++ "\t" ++ "\n").toList) = none ∧
      extract_first_sentence_for_detection ((" " ++ "\t" ++ "\n").toList) 50 = [] :=
  ⟨by decide, claim_C4_whitespace_only_inputs ((" " ++ "\t" ++ "\n").toList) 50
    (by decide)⟩

/-- C5: a nonempty text with no Japanese-script characters and no tier-1 or
tier-2 Vietnamese characters, in which ASCII letters are a strict majority,
is classified English (and in particular not Vietnamese); the stated
instance is `claim_C5_witness` below, on "Bonjour, comment ça va?". -/
theorem claim_C5_majority_ascii_is_english (text : List Char)
    (hne : text ≠ [])
    (hjap : ∀ c ∈ text,
      isHiragana c = false ∧ isKatakana c = false ∧ isKanji c = false)
    (hviet : ∀ c ∈ text, c ∉ vietnameseUnique ∧ c ∉ vietnameseCommon)
    (hmaj : 2 * text.countP isAsciiAlpha > text.length) :
    detect_language text = some Language.English ∧
      detect_language text ≠ some Language.Vietnamese := by
  have hpos : 0 < text.length := List.length_pos.mpr hne
  have hal : 0 < text.countP isAsciiAlpha := by omega
  have hall : text.all isSpace = false := by
    obtain ⟨c, hc, hpc⟩ := List.countP_pos_iff.mp hal
    rw [Bool.eq_false_iff, Ne, List.all_eq_true]
    intro h
    have := h c hc
    rw [isAsciiAlpha_not_space hpc] at this
    simp at this
  have hhira : text.countP isHiragana = 0 :=
    List.countP_eq_zero.mpr fun c hc => by simp [(hjap c hc).1]
  have hkata : text.countP isKatakana = 0 :=
    List.countP_eq_zero.mpr fun c hc => by simp [(hjap c hc).2.1]
  have hkanji : text.countP isKanji = 0 :=
    List.countP_eq_zero.mpr fun c hc => by simp [(hjap c hc).2.2]
  have hvu : text.countP (fun c => vietnameseUnique.contains c) = 0 :=
    List.countP_eq_zero.mpr fun c hc => by simp [(hviet c hc).1]
  have hvc : text.countP (fun c => vietnameseCommon.contains c) = 0 :=
    List.countP_eq_zero.mpr fun c hc => by simp [(hviet c hc).2]
  have : detect_language text = some Language.English := by
    rw [detect_language_via_counts, hall]
    simp only [Bool.false_eq_true, if_false]
    rw [if_neg (by omega), if_neg (by omega), if_neg (by omega),
      if_neg (by omega), if_neg (by omega), if_pos hmaj]
  exact ⟨this, by rw [this]; simp⟩

/-- C5 witness: the claim's own instance, French text with a non-Vietnamese
diacritic: `detect_language "Bonjour, comment ça va?"` is English. -/
theorem claim_C5_witness :
    detect_language (("Bonjour, comment ça va?").toList) = some Language.English :=
  (claim_C5_majority_ascii_is_english (("Bonjour, comment ça va?").toList)
    (by decide) (by decide) (by decide) (by decide)).1

/-- C8 counterexample: the source tier-1 set contains `ố` and `ậ`,
tone-marked forms of ô and â, which the claimed reference set (forms of
ă, đ, ơ, ư only) excludes. -/
theorem claim_C8_counterexample :
    (('ố' ∈ vietnameseUnique) ∧ 'ố' ∉ claimedTier1) ∧
      (('ậ' ∈ vietnameseUnique) ∧ 'ậ' ∉ claimedTier1) := by
  refine ⟨⟨by decide, by decide⟩, ⟨by decide, by decide⟩⟩

/-- C8, amended: the tier-1 set consists of exactly the base letters
ă, đ, ơ, ư and the tone-marked forms of ă, â, ơ, ô and ư, in upper and
lower case (58 characters); the tone-marked â and ô forms are included even
though the bare letters â and ô are not. -/
theorem claim_C8_amended_tier1_contents :
    ∀ c : Char, c ∈ vietnameseUnique ↔ c ∈ amendedTier1 := by
  have h : vietnameseUnique.Perm amendedTier1 :=
    List.isPerm_iff.mp (by decide)
  exact fun c => h.mem_iff

/-- C9: `detect_language` is invariant under permutation of the input's
characters: it depends only on the class counts, the length and the
whitespace-only test. -/
theorem claim_C9_detect_language_perm_invariant (text text2 : List Char)
    (h : text.Perm text2) : detect_language text = detect_language text2 := by
  rw [detect_language_via_counts, detect_language_via_counts,
    h.countP_eq, h.countP_eq, h.countP_eq, h.countP_eq, h.countP_eq,
    h.countP_eq, h.length_eq,
    show text.all isSpace = text2.all isSpace by
      rw [Bool.eq_iff_iff, List.all_eq_true, List.all_eq_true]
      exact ⟨fun hh x hx => hh x (h.mem_iff.mpr hx),
             fun hh x hx => hh x (h.mem_iff.mp hx)⟩]

/-- C9 witness: a transposed pair of characters yields the same result. -/
theorem claim_C9_witness :
    (("ab").toList.Perm (("ba").toList)) ∧
      detect_language (("ab").toList) = detect_language (("ba").toList) :=
  ⟨by decide, claim_C9_detect_language_perm_invariant (("ab").toList)
    (("ba").toList) (by decide)⟩

/-! ## Structural facts about the extractor stages -/

theorem pyStrip_sublist (s : List Char) : List.Sublist (pyStrip s) s := by
  rw [pyStrip]
  have h2 : List.Sublist ((s.dropWhile isSpace).reverse.dropWhile isSpace).reverse
      ((s.dropWhile isSpace).reverse).reverse :=
    List.Sublist.reverse (List.dropWhile_sublist _)
  rw [List.reverse_reverse] at h2
  exact h2.trans (List.dropWhile_sublist _)

theorem stripPairsGo_sublist (o c : Char) (s : List Char)
    (st : Option (List Char)) :
    List.Sublist (stripPairsGo o c st s)
      ((match st with | none => [] | some b => b) ++ s) := by
  induction s generalizing st with
  | nil =>
    match st with
    | none => simp [stripPairsGo]
    | some buf => simp [stripPairsGo]
  | cons x xs ih =>
    match st with
    | none =>
      rw [stripPairsGo]
      split
      · rename_i h
        exact ih (some [x])
      · exact List.cons_sublist_cons.mpr (ih none)
    | some buf =>
      rw [stripPairsGo]
      split
      · exact (ih none).trans ((List.sublist_cons_self x xs).trans
          (List.sublist_append_right buf (x :: xs)))
      · have := ih (some (buf ++ [x]))
        simpa using this

theorem stripPairs_sublist (o c : Char) (s : List Char) :
    List.Sublist (stripPairs o c s) s := by
  simpa using stripPairsGo_sublist o c s none

theorem stripAllQuotes_sublist (s : List Char) : List.Sublist (stripAllQuotes s) s := by
  simp only [stripAllQuotes, quotePatterns, List.foldl_cons, List.foldl_nil]
  exact (stripPairs_sublist _ _ _).trans ((stripPairs_sublist _ _ _).trans
    ((stripPairs_sublist _ _ _).trans ((stripPairs_sublist _ _ _).trans
    ((stripPairs_sublist _ _ _).trans (stripPairs_sublist _ _ _)))))

theorem stripAcronymsGo_sublist (d p : Bool) (s : List Char) :
    List.Sublist (stripAcronymsGo d p s) s := by
  induction s generalizing d p with
  | nil => simp [stripAcronymsGo]
  | cons x xs ih =>
    rw [stripAcronymsGo]
    split
    · split
      · exact (ih true true).trans (List.sublist_cons_self x xs)
      · exact List.cons_sublist_cons.mpr (ih false _)
    · split
      · exact (ih true true).trans (List.sublist_cons_self x xs)
      · exact List.cons_sublist_cons.mpr (ih false _)

theorem stripAcronyms_sublist (s : List Char) : List.Sublist (stripAcronyms s) s :=
  stripAcronymsGo_sublist false false s

theorem collapseGo_length (b : Bool) (s : List Char) :
    (collapseGo b s).length ≤ s.length := by
  induction s generalizing b with
  | nil => simp [collapseGo]
  | cons x xs ih =>
    rw [collapseGo]
    split
    · split
      · exact (ih true).trans (by simp)
      · simpa using ih true
    · simpa using ih false

theorem truncateTo_length (m : Nat) (s : List Char) :
    (truncateTo m s).length ≤ m ∨ truncateTo m s = s := by
  rw [truncateTo]
  split
  · exact Or.inl (by simp)
  · exact Or.inr rfl

theorem truncateTo_length_le (m : Nat) (s : List Char) :
    (truncateTo m s).length ≤ m := by
  rw [truncateTo]
  split
  · simp
  · omega

theorem candidateOf_length_le (text : List Char) (m : Nat) :
    (candidateOf text m).length ≤ m :=
  truncateTo_length_le m _

theorem extract_length_le (text : List Char) (m : Nat) :
    (extract_first_sentence_for_detection text m).length ≤ m := by
  rw [extract_first_sentence_for_detection]
  split
  · simp
  · calc (pyStrip (collapseWs (stripAcronyms (stripAllQuotes
          (candidateOf text m))))).length
        ≤ (collapseWs (stripAcronyms (stripAllQuotes
          (candidateOf text m)))).length := (pyStrip_sublist _).length_le
      _ ≤ (stripAcronyms (stripAllQuotes (candidateOf text m))).length :=
          collapseGo_length false _
      _ ≤ (stripAllQuotes (candidateOf text m)).length :=
          (stripAcronyms_sublist _).length_le
      _ ≤ (candidateOf text m).length := (stripAllQuotes_sublist _).length_le
      _ ≤ m := candidateOf_length_le text m

/-! ## Claims C6 and C7 -/

/-- C6: the truncated candidate fragment never exceeds `max_chars`
characters, and since quote removal, acronym removal and whitespace
collapsing never lengthen the string, neither does the returned string. -/
theorem claim_C6_output_bounded_by_max_chars (text : List Char) (maxChars : Nat)
    (hpos : 0 < maxChars) :
    (candidateOf text maxChars).length ≤ maxChars ∧
      (extract_first_sentence_for_detection text maxChars).length ≤ maxChars :=
  ⟨candidateOf_length_le text maxChars, extract_length_le text maxChars⟩

/-- C6 witness: a 54-character input against the default bound 50. -/
theorem claim_C6_witness :
    0 < 50 ∧
      (candidateOf (("This sentence is longer than the configured"
        ++ " hard limit").toList) 50).length ≤ 50 ∧
      (extract_first_sentence_for_detection (("This sentence is longer than"
        ++ " the configured hard limit").toList) 50).length ≤ 50 :=
  ⟨by decide, claim_C6_output_bounded_by_max_chars (("This sentence is longer"
    ++ " than the configured hard limit").toList) 50 (by decide)⟩

/-- C7 counterexample: on the claim's input the extractor does not return
`What is ?` — the text has no `.` and no newline, so nothing cuts the
second sentence off; only the quoted span is removed. -/
theorem claim_C7_counterexample :
    extract_first_sentence_for_detection c7Input ≠ ("What is ?").toList := by
  decide

/-- C7, amended: with the default bound 50,
`extract_first_sentence_for_detection("What is 'machine learning'? second
sentence")` returns `What is ? second sentence` (the quoted span is
deleted, but `?` is not a sentence delimiter, so the tail stays). -/
theorem claim_C7_amended_value :
    extract_first_sentence_for_detection c7Input =
      ("What is ? second sentence").toList := by
  decide

theorem firstSentenceCut_cons_not_delim (x : Char) (xs : List Char)
    (hn : ¬ x = newlineChar) (hp : ¬ x = periodChar) :
    firstSentenceCut (x :: xs) = x :: firstSentenceCut xs := by
  rw [firstSentenceCut, firstSentenceCut]
  rw [List.findIdx?_cons, List.findIdx?_cons]
  rw [if_neg (by simp [hn]), if_neg (by simp [hp])]
  cases hxs1 : xs.findIdx? (fun c => c = newlineChar) with
  | none =>
    cases hxs2 : xs.findIdx? (fun c => c = periodChar) with
    | none => simp [hxs1, hxs2]
    | some p => simp [hxs1, hxs2, List.take_succ_cons]
  | some n =>
    cases hxs2 : xs.findIdx? (fun c => c = periodChar) with
    | none => simp [hxs1, hxs2, List.take_succ_cons]
    | some p =>
      have h : min (n + 1) (p + 1) = min n p + 1 := by omega
      simp [hxs1, hxs2, h, List.take_succ_cons]

theorem delimCut_cons_not_delim (x : Char) (xs : List Char)
    (hn : ¬ x = newlineChar) (hp : ¬ x = periodChar) :
    delimCut (x :: xs) = x :: delimCut xs := by
  rw [delimCut, delimCut, List.findIdx?_cons]
  rw [if_neg (by simp [hn, hp])]
  cases hxs : xs.findIdx? (fun ch => ch = newlineChar || ch = periodChar) with
  | none => simp [hxs]
  | some i => simp [hxs, List.take_succ_cons]

theorem firstSentenceCut_cons_delim (x : Char) (xs : List Char)
    (h : x = newlineChar ∨ x = periodChar) :
    firstSentenceCut (x :: xs) = [x] := by
  rw [firstSentenceCut, List.findIdx?_cons, List.findIdx?_cons]
  rcases h with rfl | rfl
  · rw [if_pos (by simp), if_neg (by decide)]
    cases hxs : xs.findIdx? (fun c => c = periodChar) with
    | none => simp [hxs]
    | some p =>
      have h0 : min 0 (p + 1) = 0 := by omega
      simp [hxs, h0]
  · rw [if_neg (by decide), if_pos (by simp)]
    cases hxs : xs.findIdx? (fun c => c = newlineChar) with
    | none => simp [hxs]
    | some n =>
      have h0 : min (n + 1) 0 = 0 := by omega
      simp [hxs, h0]

theorem delimCut_cons_delim (x : Char) (xs : List Char)
    (h : x = newlineChar ∨ x = periodChar) :
    delimCut (x :: xs) = [x] := by
  rw [delimCut, List.findIdx?_cons,
    if_pos (by rcases h with rfl | rfl <;> simp)]
  simp

/-- The source's two `str.find` calls plus minimum agree with the
single-scan "earliest newline or period" description of the claim. -/
theorem firstSentenceCut_eq_delimCut (t : List Char) :
    firstSentenceCut t = delimCut t := by
  induction t with
  | nil => rfl
  | cons x xs ih =>
    by_cases hd : x = newlineChar ∨ x = periodChar
    · rw [firstSentenceCut_cons_delim x xs hd, delimCut_cons_delim x xs hd]
    · push_neg at hd
      rw [firstSentenceCut_cons_not_delim x xs hd.1 hd.2,
        delimCut_cons_not_delim x xs hd.1 hd.2, ih]

/-- C2 counterexample: the three-character text `“a”` (curly double quotes)
is returned unchanged by the source extractor — the source's fifth pattern
is the ASCII double-quote pattern again, not curly double quotes — while
the claimed reference pipeline deletes the quoted span and returns the
empty string. -/
theorem claim_C2_counterexample :
    specExtractClaimed [ldquoChar, 'a', rdquoChar] 50 ≠
      extract_first_sentence_for_detection [ldquoChar, 'a', rdquoChar] 50 := by
  decide

/-- C2, amended: `extract_first_sentence_for_detection` equals the claimed
reference pipeline with its fifth pattern replaced by a second ASCII
double-quote pass (so spans in curly double quotes are not removed);
everything else — guard, trim, earliest-delimiter prefix, hard truncation,
sequential shortest-span quote deletion, acronym deletion, whitespace
collapsing and final trim — is as the claim states. -/
theorem claim_C2_amended_extract_matches_reference (text : List Char)
    (maxChars : Nat) (hpos : 0 < maxChars) :
    extract_first_sentence_for_detection text maxChars =
      specExtractAmended text maxChars := by
  rw [extract_first_sentence_for_detection, specExtractAmended, detect_guard,
    candidateOf, firstSentenceCut_eq_delimCut]
  rfl

/-- C2 amended, witness: the counterexample input, where the two sides agree
on returning the text unchanged. -/
theorem claim_C2_amended_witness :
    0 < 50 ∧
      extract_first_sentence_for_detection [ldquoChar, 'a', rdquoChar] 50 =
        specExtractAmended [ldquoChar, 'a', rdquoChar] 50 :=
  ⟨by decide, claim_C2_amended_extract_matches_reference
    [ldquoChar, 'a', rdquoChar] 50 (by decide)⟩

/-! ## Claim C10: idempotence of the extractor

The remaining lemmas show that a first pass leaves nothing for a second
pass to change: the output is stripped, contains a delimiter only in final
position, fits the bound, and admits no quote-pair, acronym or
whitespace-run match. -/

theorem dropWhile_idem (p : Char → Bool) (l : List Char) :
    (l.dropWhile p).dropWhile p = l.dropWhile p := by
  induction l with
  | nil => rfl
  | cons x xs ih =>
    by_cases h : p x = true
    · simp [List.dropWhile_cons, h, ih]
    · rw [Bool.not_eq_true] at h
      simp [List.dropWhile_cons, h]

theorem dropWhile_eq_self_of_head (p : Char → Bool) (l : List Char)
    (h : match l.head? with | none => True | some y => p y = false) :
    l.dropWhile p = l := by
  cases l with
  | nil => rfl
  | cons x xs =>
    simp only [List.head?_cons] at h
    simp [List.dropWhile_cons, h]

theorem dropWhile_head_not (p : Char → Bool) (l : List Char) :
    match (l.dropWhile p).head? with
    | none => True
    | some y => p y = false := by
  induction l with
  | nil => simp
  | cons x xs ih =>
    by_cases h : p x = true
    · simpa [List.dropWhile_cons, h] using ih
    · rw [Bool.not_eq_true] at h
      simp [List.dropWhile_cons, h]

theorem pyStrip_eq_rdrop (s : List Char) :
    pyStrip s = rdrop isSpace (s.dropWhile isSpace) := rfl

theorem rdrop_append_tail (p : Char → Bool) (t : List Char) :
    t = rdrop p t ++ (t.reverse.takeWhile p).reverse ∧
      ∀ y ∈ (t.reverse.takeWhile p).reverse, p y = true := by
  constructor
  · conv_lhs => rw [show t = t.reverse.reverse by rw [List.reverse_reverse],
      ← List.takeWhile_append_dropWhile (p := p) (l := t.reverse)]
    rw [List.reverse_append]
    rfl
  · intro y hy
    exact List.mem_takeWhile_imp (List.mem_reverse.mp hy)

theorem rdrop_head? (p : Char → Bool) (t : List Char)
    (h : rdrop p t ≠ []) : t.head? = (rdrop p t).head? := by
  obtain ⟨hdec, -⟩ := rdrop_append_tail p t
  cases hr : rdrop p t with
  | nil => exact absurd hr h
  | cons y ys =>
    conv_lhs => rw [hdec]
    rw [hr]
    simp

theorem rdrop_idem (p : Char → Bool) (t : List Char) :
    rdrop p (rdrop p t) = rdrop p t := by
  rw [rdrop, rdrop, List.reverse_reverse, dropWhile_idem]

theorem pyStrip_idem (s : List Char) : pyStrip (pyStrip s) = pyStrip s := by
  rw [pyStrip_eq_rdrop, pyStrip_eq_rdrop]
  have h1 : (rdrop isSpace (s.dropWhile isSpace)).dropWhile isSpace =
      rdrop isSpace (s.dropWhile isSpace) := by
    apply dropWhile_eq_self_of_head
    cases hr : rdrop isSpace (s.dropWhile isSpace) with
    | nil => simp
    | cons y ys =>
      have hne : rdrop isSpace (s.dropWhile isSpace) ≠ [] := by simp [hr]
      have := rdrop_head? isSpace (s.dropWhile isSpace) hne
      rw [hr] at this
      simp only [List.head?_cons] at this
      have hh := dropWhile_head_not isSpace s
      rw [this] at hh
      simpa using hh
  rw [h1, rdrop_idem]

theorem hasPair_contains {o c : Char} {l : List Char}
    (h : hasPair o c l = true) : c ∈ l := by
  induction l with
  | nil => simp [hasPair] at h
  | cons x xs ih =>
    rw [hasPair] at h
    by_cases hx : x = o
    · rw [if_pos hx] at h
      exact List.mem_cons_of_mem x (by simpa using h)
    · rw [if_neg hx] at h
      exact List.mem_cons_of_mem x (ih h)

theorem hasPair_cons {o c : Char} {l : List Char} (x : Char)
    (h : hasPair o c l = true) : hasPair o c (x :: l) = true := by
  rw [hasPair]
  split
  · simpa using hasPair_contains h
  · exact h

theorem hasPair_sublist {o c : Char} {v u : List Char} (hs : List.Sublist v u)
    (h : hasPair o c v = true) : hasPair o c u = true := by
  induction hs with
  | slnil => exact h
  | cons x _ ih => exact hasPair_cons x (ih h)
  | cons₂ x hsub ih =>
    rw [hasPair] at h ⊢
    by_cases hx : x = o
    · rw [if_pos hx] at h ⊢
      simpa using hsub.mem (by simpa using h)
    · rw [if_neg hx] at h ⊢
      exact ih h

theorem stripPairsGo_aux_no_closer (o c : Char) :
    ∀ (rest : List Char) (buf : List Char), c ∉ rest →
      stripPairsGo o c (some buf) rest = buf ++ rest := by
  intro rest
  induction rest with
  | nil => intro buf _; simp [stripPairsGo]
  | cons y ys ih =>
    intro buf h
    have hyc : ¬ y = c := fun he => h (he ▸ List.mem_cons_self y ys)
    have hys : c ∉ ys := fun hm => h (List.mem_cons_of_mem y hm)
    rw [stripPairsGo, if_neg hyc, ih (buf ++ [y]) hys]
    simp

theorem stripPairs_of_pairFree (o c : Char) (s : List Char)
    (h : hasPair o c s = false) : stripPairs o c s = s := by
  rw [stripPairs]
  induction s with
  | nil => rfl
  | cons x xs ih =>
    rw [hasPair] at h
    rw [stripPairsGo]
    by_cases hx : x = o
    · rw [if_pos hx] at h ⊢
      have hnc : c ∉ xs := by simpa using h
      rw [stripPairsGo_aux_no_closer o c xs [x] hnc]
      subst hx
      rfl
    · rw [if_neg hx] at h ⊢
      rw [ih h]

theorem stripPairsGo_pairFree (o c : Char) :
    ∀ (s : List Char) (st : Option (List Char)),
      (match st with
       | none => True
       | some buf => ∃ content, buf = o :: content ∧ c ∉ content) →
      hasPair o c (stripPairsGo o c st s) = false := by
  intro s
  induction s with
  | nil =>
    intro st hst
    match st with
    | none => simp [stripPairsGo, hasPair]
    | some buf =>
      obtain ⟨content, rfl, hc⟩ := hst
      simp [stripPairsGo, hasPair, hc]
  | cons x xs ih =>
    intro st hst
    match st with
    | none =>
      rw [stripPairsGo]
      by_cases hx : x = o
      · rw [if_pos hx]
        exact ih (some [x]) ⟨[], by rw [hx], by simp⟩
      · rw [if_neg hx, hasPair, if_neg hx]
        exact ih none trivial
    | some buf =>
      obtain ⟨content, rfl, hc⟩ := hst
      rw [stripPairsGo]
      by_cases hx : x = c
      · rw [if_pos hx]
        exact ih none trivial
      · rw [if_neg hx]
        refine ih (some ((o :: content) ++ [x])) ⟨content ++ [x], by simp, ?_⟩
        intro hmem
        rcases List.mem_append.mp hmem with hm | hm
        · exact hc hm
        · simp only [List.mem_singleton] at hm
          exact hx hm.symm

theorem stripPairs_pairFree (o c : Char) (s : List Char) :
    hasPair o c (stripPairs o c s) = false :=
  stripPairsGo_pairFree o c s none trivial

/-- Characters of a collapsed string: a space, or a character of the
input. -/
theorem collapseGo_mem {u : List Char} {b : Bool} {y : Char}
    (h : y ∈ collapseGo b u) : y = ' ' ∨ y ∈ u := by
  induction u generalizing b with
  | nil => simp [collapseGo] at h
  | cons x xs ih =>
    rw [collapseGo] at h
    split at h
    · split at h
      · rcases ih h with h' | h'
        · exact Or.inl h'
        · exact Or.inr (List.mem_cons_of_mem x h')
      · rcases List.mem_cons.mp h with h' | h'
        · exact Or.inl h'
        · rcases ih h' with h'' | h''
          · exact Or.inl h''
          · exact Or.inr (List.mem_cons_of_mem x h'')
    · rcases List.mem_cons.mp h with h' | h'
      · exact Or.inr (h' ▸ List.mem_cons_self x xs)
      · rcases ih h' with h'' | h''
        · exact Or.inl h''
        · exact Or.inr (List.mem_cons_of_mem x h'')

theorem hasPair_collapseGo {o c : Char} (ho : isSpace o = false)
    (hc : isSpace c = false) :
    ∀ (u : List Char) (b : Bool),
      hasPair o c (collapseGo b u) = true → hasPair o c u = true := by
  have hspace_o : ¬ (' ' : Char) = o := by
    intro he
    rw [← he] at ho
    simp [isSpace, pythonWhitespace] at ho
  have hspace_c : ¬ (c = ' ') := by
    intro he
    rw [he] at hc
    simp [isSpace, pythonWhitespace] at hc
  intro u
  induction u with
  | nil => intro b h; simp [collapseGo, hasPair] at h
  | cons x xs ih =>
    intro b h
    rw [collapseGo] at h
    split at h
    · rename_i hx
      split at h
      · exact hasPair_cons x (ih true h)
      · rw [hasPair, if_neg hspace_o] at h
        exact hasPair_cons x (ih true h)
    · rename_i hx
      rw [hasPair] at h ⊢
      split at h
      · rename_i hxo
        rw [if_pos hxo]
        rw [List.elem_iff] at h ⊢
        rcases collapseGo_mem h with h' | h'
        · exact absurd h' hspace_c
        · exact h'
      · rename_i hxo
        rw [if_neg hxo]
        exact ih false h

theorem isUpperAscii_isWordChar {c : Char} (h : isUpperAscii c = true) :
    isWordChar c = true := by
  simp only [isUpperAscii, Bool.and_eq_true, decide_eq_true_eq] at h
  rw [isWordChar, List.any_eq_true]
  refine ⟨(0x41, 0x5A), by decide, ?_⟩
  simp only [Bool.and_eq_true, decide_eq_true_eq]
  omega

theorem isSpace_not_upper {c : Char} (h : isSpace c = true) :
    isUpperAscii c = false := by
  have hm : c.toNat ∈ pythonWhitespace := by simpa [isSpace] using h
  simp only [pythonWhitespace, List.mem_cons, List.not_mem_nil, or_false] at hm
  simp only [isUpperAscii, Bool.and_eq_false_iff, decide_eq_false_iff_not]
  omega

theorem isSpace_not_word {c : Char} (h : isSpace c = true) :
    isWordChar c = false := by
  have hm : c.toNat ∈ pythonWhitespace := by simpa [isSpace] using h
  simp only [pythonWhitespace, List.mem_cons, List.not_mem_nil, or_false] at hm
  rw [isWordChar]
  rcases hm with h | h | h | h | h | h | h | h | h | h | h | h | h | h | h |
    h | h | h | h | h | h | h | h | h | h | h | h | h | h <;> rw [h] <;> decide

theorem acrRun_cons_upper {x : Char} (h : isUpperAscii x = true)
    (l : List Char) : acrRun (x :: l) = 1 + acrRun l := by
  simp [acrRun, List.takeWhile_cons, h, Nat.add_comm]

theorem acrRun_cons_not_upper {x : Char} (h : isUpperAscii x = false)
    (l : List Char) : acrRun (x :: l) = 0 := by
  simp [acrRun, List.takeWhile_cons, h]

theorem boundAfter_cons_upper {x : Char} (h : isUpperAscii x = true)
    (l : List Char) : boundAfter (x :: l) = boundAfter l := by
  simp [boundAfter, List.dropWhile_cons, h]

theorem boundAfter_cons_not_upper {x : Char} (h : isUpperAscii x = false)
    (l : List Char) : boundAfter (x :: l) = !isWordChar x := by
  simp [boundAfter, List.dropWhile_cons, h]

theorem hasAcr_cons_not_upper {x : Char} (h : isUpperAscii x = false)
    (p : Bool) (xs : List Char) :
    hasAcr p (x :: xs) = hasAcr (isWordChar x) xs := by
  rw [hasAcr, if_neg]
  simp [h]

/-- In skip mode the scanner drops the rest of the (already validated)
uppercase run and resumes after it. -/
theorem stripAcronymsGo_true_eval (p : Bool) (u : List Char) :
    stripAcronymsGo true p u =
      match u.dropWhile isUpperAscii with
      | [] => []
      | b :: bs => b :: stripAcronymsGo false (isWordChar b) bs := by
  induction u generalizing p with
  | nil => rfl
  | cons y ys ih =>
    rw [stripAcronymsGo]
    simp only [if_true]
    by_cases hy : isUpperAscii y = true
    · rw [if_pos hy, ih true, List.dropWhile_cons, if_pos hy]
    · rw [Bool.not_eq_true] at hy
      rw [if_neg (by simp [hy]), List.dropWhile_cons, if_neg (by simp [hy])]

/-- Emitting with a word-character on the left never changes the leading
uppercase run or its right boundary. -/
theorem stripAcronymsGo_false_true_run (u : List Char) :
    acrRun (stripAcronymsGo false true u) = acrRun u ∧
      boundAfter (stripAcronymsGo false true u) = boundAfter u := by
  induction u with
  | nil => exact ⟨rfl, rfl⟩
  | cons y ys ih =>
    have hstep : stripAcronymsGo false true (y :: ys) =
        y :: stripAcronymsGo false (isWordChar y) ys := by
      rw [stripAcronymsGo]
      simp
    rw [hstep]
    by_cases hy : isUpperAscii y = true
    · rw [isUpperAscii_isWordChar hy]
      rw [acrRun_cons_upper hy, acrRun_cons_upper hy,
        boundAfter_cons_upper hy, boundAfter_cons_upper hy]
      exact ⟨by rw [ih.1], ih.2⟩
    · rw [Bool.not_eq_true] at hy
      rw [acrRun_cons_not_upper hy, acrRun_cons_not_upper hy,
        boundAfter_cons_not_upper hy, boundAfter_cons_not_upper hy]
      exact ⟨rfl, rfl⟩

/-- After the acronym pass there is no remaining acronym match: deletions
splice non-word boundary characters together, never creating or exposing a
new 2-to-5 uppercase run. -/
theorem stripAcronymsGo_noAcr :
    ∀ (n : Nat) (u : List Char), u.length ≤ n → ∀ p : Bool,
      hasAcr p (stripAcronymsGo false p u) = false := by
  intro n
  induction n with
  | zero =>
    intro u hu p
    rw [List.length_eq_zero.mp (Nat.le_zero.mp hu)]
    rfl
  | succ n ih =>
    intro u hu p
    match u with
    | [] => rfl
    | x :: xs =>
      rw [stripAcronymsGo]
      simp only [Bool.false_eq_true, if_false]
      by_cases hcond : (!p && isUpperAscii x && decide (2 ≤ acrRun (x :: xs)) &&
          decide (acrRun (x :: xs) ≤ 5) && boundAfter (x :: xs)) = true
      · rw [if_pos hcond]
        simp only [Bool.and_eq_true, decide_eq_true_eq] at hcond
        obtain ⟨⟨⟨⟨hp, hup⟩, h2⟩, h5⟩, hbnd⟩ := hcond
        rw [stripAcronymsGo_true_eval]
        rw [boundAfter_cons_upper hup] at hbnd
        cases hdrop : xs.dropWhile isUpperAscii with
        | nil => simp [hasAcr]
        | cons b bs =>
          rw [boundAfter, hdrop] at hbnd
          have hbw : isWordChar b = false := by simpa using hbnd
          have hbu : isUpperAscii b = false := by
            rw [Bool.eq_false_iff]
            intro hb
            rw [isUpperAscii_isWordChar hb] at hbw
            simp at hbw
          rw [hasAcr_cons_not_upper hbu]
          have hlen : bs.length ≤ n := by
            have h1 : (xs.dropWhile isUpperAscii).length ≤ xs.length :=
              (List.dropWhile_sublist _).length_le
            rw [hdrop] at h1
            simp only [List.length_cons] at h1 hu
            omega
          exact ih bs hlen (isWordChar b)
      · rw [if_neg hcond]
        rw [Bool.not_eq_true] at hcond
        rw [hasAcr]
        by_cases hup : isUpperAscii x = true
        · have hw : isWordChar x = true := isUpperAscii_isWordChar hup
          have hR := stripAcronymsGo_false_true_run xs
          have e1 : acrRun (x :: stripAcronymsGo false (isWordChar x) xs) =
              acrRun (x :: xs) := by
            rw [hw, acrRun_cons_upper hup, acrRun_cons_upper hup, hR.1]
          have e2 : boundAfter (x :: stripAcronymsGo false (isWordChar x) xs) =
              boundAfter (x :: xs) := by
            rw [hw, boundAfter_cons_upper hup, boundAfter_cons_upper hup, hR.2]
          rw [if_neg (by rw [e1, e2, hcond]; simp)]
          exact ih xs (by simp only [List.length_cons] at hu; omega)
            (isWordChar x)
        · rw [Bool.not_eq_true] at hup
          rw [if_neg (by simp [hup])]
          exact ih xs (by simp only [List.length_cons] at hu; omega)
            (isWordChar x)

theorem stripAcronyms_noAcr (u : List Char) :
    hasAcr false (stripAcronyms u) = false :=
  stripAcronymsGo_noAcr u.length u (Nat.le_refl _) false

/-- If there is no acronym match, the acronym pass changes nothing. -/
theorem stripAcronymsGo_of_noAcr :
    ∀ (u : List Char) (p : Bool), hasAcr p u = false →
      stripAcronymsGo false p u = u := by
  intro u
  induction u with
  | nil => intro p _; rfl
  | cons x xs ih =>
    intro p h
    rw [hasAcr] at h
    rw [stripAcronymsGo]
    simp only [Bool.false_eq_true, if_false]
    split at h
    · simp at h
    · rename_i hcond
      rw [if_neg hcond, ih (isWordChar x) h]

theorem space_isSpace : isSpace ' ' = true := by decide

theorem space_not_upper : isUpperAscii ' ' = false := by decide

theorem space_not_word : isWordChar ' ' = false := by decide

/-- Collapsing whitespace preserves the leading uppercase run and its right
boundary (spaces and whitespace are equally non-word). -/
theorem collapseGo_run (l : List Char) :
    acrRun (collapseGo false l) = acrRun l ∧
      boundAfter (collapseGo false l) = boundAfter l := by
  induction l with
  | nil => exact ⟨rfl, rfl⟩
  | cons y ys ih =>
    by_cases hy : isSpace y = true
    · rw [collapseGo, if_pos hy]
      simp only [Bool.false_eq_true, if_false]
      rw [acrRun_cons_not_upper space_not_upper,
        acrRun_cons_not_upper (isSpace_not_upper hy),
        boundAfter_cons_not_upper space_not_upper,
        boundAfter_cons_not_upper (isSpace_not_upper hy),
        space_not_word, isSpace_not_word hy]
      exact ⟨rfl, rfl⟩
    · rw [Bool.not_eq_true] at hy
      rw [collapseGo, hy]
      simp only [Bool.false_eq_true, if_false]
      by_cases hup : isUpperAscii y = true
      · rw [acrRun_cons_upper hup, acrRun_cons_upper hup,
          boundAfter_cons_upper hup, boundAfter_cons_upper hup, ih.1, ih.2]
        exact ⟨rfl, rfl⟩
      · rw [Bool.not_eq_true] at hup
        rw [acrRun_cons_not_upper hup, acrRun_cons_not_upper hup,
          boundAfter_cons_not_upper hup, boundAfter_cons_not_upper hup]
        exact ⟨rfl, rfl⟩

/-- No acronym match survives whitespace collapsing: runs and the wordness
of their neighbours are unchanged. -/
theorem hasAcr_collapseGo (u : List Char) :
    (∀ p : Bool, hasAcr p u = false → hasAcr p (collapseGo false u) = false) ∧
      (hasAcr false u = false → hasAcr false (collapseGo true u) = false) := by
  induction u with
  | nil => exact ⟨fun p h => h, fun h => h⟩
  | cons x xs ih =>
    have comp1 : ∀ p : Bool, hasAcr p (x :: xs) = false →
        hasAcr p (collapseGo false (x :: xs)) = false := by
      intro p h
      by_cases hx : isSpace x = true
      · rw [collapseGo, if_pos hx]
        simp only [Bool.false_eq_true, if_false]
        rw [hasAcr_cons_not_upper (isSpace_not_upper hx),
          isSpace_not_word hx] at h
        rw [hasAcr_cons_not_upper space_not_upper, space_not_word]
        exact ih.2 h
      · rw [Bool.not_eq_true] at hx
        rw [collapseGo, hx]
        simp only [Bool.false_eq_true, if_false]
        have e1 : acrRun (x :: collapseGo false xs) = acrRun (x :: xs) := by
          by_cases hup : isUpperAscii x = true
          · rw [acrRun_cons_upper hup, acrRun_cons_upper hup,
              (collapseGo_run xs).1]
          · rw [Bool.not_eq_true] at hup
            rw [acrRun_cons_not_upper hup, acrRun_cons_not_upper hup]
        have e2 : boundAfter (x :: collapseGo false xs) =
            boundAfter (x :: xs) := by
          by_cases hup : isUpperAscii x = true
          · rw [boundAfter_cons_upper hup, boundAfter_cons_upper hup,
              (collapseGo_run xs).2]
          · rw [Bool.not_eq_true] at hup
            rw [boundAfter_cons_not_upper hup, boundAfter_cons_not_upper hup]
        rw [hasAcr] at h
        by_cases hcond : (!p && isUpperAscii x && decide (2 ≤ acrRun (x :: xs))
            && decide (acrRun (x :: xs) ≤ 5) && boundAfter (x :: xs)) = true
        · rw [if_pos hcond] at h
          simp at h
        · rw [if_neg hcond] at h
          rw [Bool.not_eq_true] at hcond
          rw [hasAcr, if_neg (by rw [e1, e2, hcond]; simp)]
          exact ih.1 (isWordChar x) h
    refine ⟨comp1, ?_⟩
    intro h
    by_cases hx : isSpace x = true
    · rw [collapseGo, if_pos hx]
      simp only [if_true]
      rw [hasAcr_cons_not_upper (isSpace_not_upper hx),
        isSpace_not_word hx] at h
      exact ih.2 h
    · rw [Bool.not_eq_true] at hx
      have : collapseGo true (x :: xs) = collapseGo false (x :: xs) := by
        rw [collapseGo, collapseGo, hx]
        simp
      rw [this]
      exact comp1 false h

theorem hasAcr_dropWhile_space (u : List Char) :
    hasAcr false (u.dropWhile isSpace) = hasAcr false u := by
  induction u with
  | nil => rfl
  | cons x xs ih =>
    by_cases hx : isSpace x = true
    · rw [List.dropWhile_cons, if_pos hx, ih,
        hasAcr_cons_not_upper (isSpace_not_upper hx), isSpace_not_word hx]
    · rw [Bool.not_eq_true] at hx
      rw [List.dropWhile_cons, if_neg (by simp [hx])]

theorem hasAcr_all_space :
    ∀ (u : List Char), (∀ y ∈ u, isSpace y = true) → ∀ p : Bool,
      hasAcr p u = false := by
  intro u
  induction u with
  | nil => intro _ p; rfl
  | cons x xs ih =>
    intro h p
    have hx : isSpace x = true := h x (List.mem_cons_self x xs)
    rw [hasAcr_cons_not_upper (isSpace_not_upper hx)]
    exact ih (fun y hy => h y (List.mem_cons_of_mem x hy)) _

/-- A trailing all-whitespace suffix does not affect the leading uppercase
run or its boundary. -/
theorem acrRun_boundAfter_append_space (w : List Char)
    (hw : ∀ y ∈ w, isSpace y = true) :
    ∀ l : List Char, acrRun (l ++ w) = acrRun l ∧
      boundAfter (l ++ w) = boundAfter l := by
  intro l
  induction l with
  | nil =>
    rw [List.nil_append]
    cases w with
    | nil => exact ⟨rfl, rfl⟩
    | cons s ws =>
      have hs : isSpace s = true := hw s (List.mem_cons_self s ws)
      rw [acrRun_cons_not_upper (isSpace_not_upper hs),
        boundAfter_cons_not_upper (isSpace_not_upper hs),
        isSpace_not_word hs]
      exact ⟨rfl, rfl⟩
  | cons y l' ih =>
    rw [List.cons_append]
    by_cases hup : isUpperAscii y = true
    · rw [acrRun_cons_upper hup, acrRun_cons_upper hup,
        boundAfter_cons_upper hup, boundAfter_cons_upper hup, ih.1, ih.2]
      exact ⟨rfl, rfl⟩
    · rw [Bool.not_eq_true] at hup
      rw [acrRun_cons_not_upper hup, acrRun_cons_not_upper hup,
        boundAfter_cons_not_upper hup, boundAfter_cons_not_upper hup]
      exact ⟨rfl, rfl⟩

theorem hasAcr_append_space (w : List Char)
    (hw : ∀ y ∈ w, isSpace y = true) :
    ∀ (v : List Char) (p : Bool), hasAcr p (v ++ w) = hasAcr p v := by
  intro v
  induction v with
  | nil =>
    intro p
    rw [List.nil_append]
    rw [hasAcr_all_space w hw p]
    rfl
  | cons x v' ih =>
    intro p
    rw [List.cons_append]
    have e := acrRun_boundAfter_append_space w hw (x :: v')
    rw [List.cons_append] at e
    rw [hasAcr, hasAcr, e.1, e.2]
    by_cases hcond : (!p && isUpperAscii x && decide (2 ≤ acrRun (x :: v')) &&
        decide (acrRun (x :: v') ≤ 5) && boundAfter (x :: v')) = true
    · rw [if_pos hcond, if_pos hcond]
    · rw [if_neg hcond, if_neg hcond]
      exact ih (isWordChar x)

theorem hasAcr_pyStrip (u : List Char) (h : hasAcr false u = false) :
    hasAcr false (pyStrip u) = false := by
  rw [pyStrip_eq_rdrop]
  have hv : hasAcr false (u.dropWhile isSpace) = false := by
    rw [hasAcr_dropWhile_space]; exact h
  obtain ⟨hdec, htail⟩ := rdrop_append_tail isSpace (u.dropWhile isSpace)
  have he := hasAcr_append_space _ htail
    (rdrop isSpace (u.dropWhile isSpace)) false
  rw [← hdec] at he
  rw [← he]
  exact hv

theorem collapsedGo_mono {l : List Char} (h : collapsedGo true l = true) :
    collapsedGo false l = true := by
  cases l with
  | nil => rfl
  | cons x xs =>
    rw [collapsedGo] at h ⊢
    by_cases hx : isSpace x = true
    · rw [if_pos hx] at h
      simp at h
    · rw [Bool.not_eq_true] at hx
      rw [hx] at h ⊢
      simpa using h

theorem collapsedGo_fixpoint :
    ∀ (u : List Char) (b : Bool), collapsedGo b u = true →
      collapseGo b u = u := by
  intro u
  induction u with
  | nil => intro b _; rfl
  | cons x xs ih =>
    intro b h
    rw [collapsedGo] at h
    rw [collapseGo]
    by_cases hx : isSpace x = true
    · rw [if_pos hx] at h ⊢
      simp only [Bool.and_eq_true, Bool.not_eq_true', decide_eq_true_eq] at h
      obtain ⟨⟨hb, hsp⟩, hcol⟩ := h
      rw [hb]
      simp only [Bool.false_eq_true, if_false]
      rw [ih true hcol, hsp]
    · rw [Bool.not_eq_true] at hx
      rw [hx] at h ⊢
      simp only [Bool.false_eq_true, if_false] at h ⊢
      rw [ih false h]

theorem collapsedGo_collapseGo :
    ∀ (u : List Char) (b : Bool), collapsedGo b (collapseGo b u) = true := by
  intro u
  induction u with
  | nil => intro b; rfl
  | cons x xs ih =>
    intro b
    rw [collapseGo]
    by_cases hx : isSpace x = true
    · rw [if_pos hx]
      cases b with
      | true => simpa using ih true
      | false =>
        simp only [Bool.false_eq_true, if_false]
        rw [collapsedGo, if_pos space_isSpace]
        simpa using ih true
    · rw [Bool.not_eq_true] at hx
      rw [hx]
      simp only [Bool.false_eq_true, if_false]
      rw [collapsedGo, hx]
      simp only [Bool.false_eq_true, if_false]
      exact ih false

theorem collapsedGo_append_right :
    ∀ (l₁ l₂ : List Char) (b : Bool), collapsedGo b (l₁ ++ l₂) = true →
      collapsed l₂ = true := by
  intro l₁
  induction l₁ with
  | nil =>
    intro l₂ b h
    cases b with
    | false => exact h
    | true => exact collapsedGo_mono h
  | cons c cs ih =>
    intro l₂ b h
    rw [List.cons_append, collapsedGo] at h
    by_cases hc : isSpace c = true
    · rw [if_pos hc] at h
      simp only [Bool.and_eq_true] at h
      exact ih l₂ true h.2
    · rw [Bool.not_eq_true] at hc
      rw [hc] at h
      simp only [Bool.false_eq_true, if_false] at h
      exact ih l₂ false h

theorem collapsedGo_append_left :
    ∀ (l₁ l₂ : List Char) (b : Bool), collapsedGo b (l₁ ++ l₂) = true →
      collapsedGo b l₁ = true := by
  intro l₁
  induction l₁ with
  | nil => intro l₂ b _; rfl
  | cons c cs ih =>
    intro l₂ b h
    rw [List.cons_append, collapsedGo] at h
    rw [collapsedGo]
    by_cases hc : isSpace c = true
    · rw [if_pos hc] at h ⊢
      simp only [Bool.and_eq_true] at h ⊢
      exact ⟨h.1, ih l₂ true h.2⟩
    · rw [Bool.not_eq_true] at hc
      rw [hc] at h ⊢
      simp only [Bool.false_eq_true, if_false] at h ⊢
      exact ih l₂ false h

theorem collapsed_pyStrip {u : List Char} (h : collapsed u = true) :
    collapsed (pyStrip u) = true := by
  rw [pyStrip_eq_rdrop]
  have h1 : collapsed (u.dropWhile isSpace) = true := by
    have hsplit := List.takeWhile_append_dropWhile (p := isSpace) (l := u)
    rw [collapsed, ← hsplit] at h
    exact collapsedGo_append_right _ _ _ h
  obtain ⟨hdec, -⟩ := rdrop_append_tail isSpace (u.dropWhile isSpace)
  rw [collapsed, hdec] at h1
  exact collapsedGo_append_left _ _ _ h1

theorem tailFree_cons {p : Char → Bool} {x : Char} {l : List Char}
    (hx : p x = false) (hl : tailFree p l = true) :
    tailFree p (x :: l) = true := by
  cases l with
  | nil => rfl
  | cons y ys =>
    rw [tailFree, hx, hl]
    rfl

theorem tailFree_of_cons {p : Char → Bool} {x : Char} {l : List Char}
    (h : tailFree p (x :: l) = true) : tailFree p l = true := by
  cases l with
  | nil => rfl
  | cons y ys =>
    rw [tailFree] at h
    exact (Bool.and_eq_true .. ▸ h).2

theorem tailFree_head {p : Char → Bool} {x y : Char} {ys : List Char}
    (h : tailFree p (x :: y :: ys) = true) : p x = false := by
  rw [tailFree] at h
  have := (Bool.and_eq_true .. ▸ h).1
  simpa using this

theorem tailFree_sublist {p : Char → Bool} {v u : List Char}
    (hs : List.Sublist v u) (h : tailFree p u = true) :
    tailFree p v = true := by
  induction hs with
  | slnil => exact h
  | cons x hsub ih => exact ih (tailFree_of_cons h)
  | cons₂ x hsub ih =>
    rename_i l₁ l₂
    cases l₁ with
    | nil => rfl
    | cons y ys =>
      have hl₂ : ∃ z zs, l₂ = z :: zs := by
        cases l₂ with
        | nil => exact absurd hsub.length_le (by simp)
        | cons z zs => exact ⟨z, zs, rfl⟩
      obtain ⟨z, zs, rfl⟩ := hl₂
      exact tailFree_cons (tailFree_head h) (ih (tailFree_of_cons h))

theorem tailFree_delimCut (t : List Char) :
    tailFree (fun ch => ch = newlineChar || ch = periodChar)
      (delimCut t) = true := by
  induction t with
  | nil => rfl
  | cons x xs ih =>
    by_cases hd : x = newlineChar ∨ x = periodChar
    · rw [delimCut_cons_delim x xs hd]
      rfl
    · push_neg at hd
      rw [delimCut_cons_not_delim x xs hd.1 hd.2]
      exact tailFree_cons (by simp [hd.1, hd.2]) ih

theorem truncateTo_sublist (m : Nat) (s : List Char) :
    List.Sublist (truncateTo m s) s := by
  rw [truncateTo]
  split
  · exact List.take_sublist m s
  · exact List.Sublist.refl s

theorem tailFree_collapseGo {p : Char → Bool} (hp : p ' ' = false) :
    ∀ u : List Char, tailFree p u = true →
      (tailFree p (collapseGo false u) = true ∧
        tailFree p (collapseGo true u) = true) := by
  intro u
  induction u with
  | nil => exact fun _ => ⟨rfl, rfl⟩
  | cons x xs ih =>
    intro h
    have hxs := tailFree_of_cons h
    have hnonspace : isSpace x = false →
        tailFree p (x :: collapseGo false xs) = true := by
      intro hx
      cases hcol : collapseGo false xs with
      | nil => rfl
      | cons z zs =>
        have hxsne : ∃ w ws, xs = w :: ws := by
          cases xs with
          | nil => simp [collapseGo] at hcol
          | cons w ws => exact ⟨w, ws, rfl⟩
        obtain ⟨w, ws, rfl⟩ := hxsne
        refine tailFree_cons (tailFree_head h) ?_
        rw [← hcol]
        exact ((ih hxs).1)
    constructor
    · rw [collapseGo]
      by_cases hx : isSpace x = true
      · rw [if_pos hx]
        simp only [Bool.false_eq_true, if_false]
        exact tailFree_cons hp (ih hxs).2
      · rw [Bool.not_eq_true] at hx
        rw [hx]
        simp only [Bool.false_eq_true, if_false]
        exact hnonspace hx
    · rw [collapseGo]
      by_cases hx : isSpace x = true
      · rw [if_pos hx]
        simp only [if_true]
        exact (ih hxs).2
      · rw [Bool.not_eq_true] at hx
        rw [hx]
        simp only [Bool.false_eq_true, if_false]
        exact hnonspace hx

theorem tailFree_findIdx? {p : Char → Bool} :
    ∀ u : List Char, tailFree p u = true →
      u.findIdx? p = none ∨ u.findIdx? p = some (u.length - 1) := by
  intro u
  induction u with
  | nil => exact fun _ => Or.inl rfl
  | cons x xs ih =>
    intro h
    cases xs with
    | nil =>
      by_cases hx : p x = true
      · exact Or.inr (by simp [List.findIdx?_cons, hx])
      · rw [Bool.not_eq_true] at hx
        exact Or.inl (by simp [List.findIdx?_cons, hx])
    | cons y ys =>
      have hx := tailFree_head h
      rw [List.findIdx?_cons, hx]
      simp only [Bool.false_eq_true, if_false]
      rw [List.findIdx?_succ]
      rcases ih (tailFree_of_cons h) with hf | hf
      · rw [hf]
        exact Or.inl rfl
      · rw [hf]
        refine Or.inr ?_
        simp only [Option.map_some, List.length_cons]
        congr 1

theorem delimCut_eq_self_of_tailFree (r : List Char)
    (h : tailFree (fun ch => ch = newlineChar || ch = periodChar) r = true) :
    delimCut r = r := by
  rcases tailFree_findIdx? r h with hf | hf
  · rw [delimCut, hf]
  · rw [delimCut, hf]
    have hne : r ≠ [] := by
      rintro rfl
      simp at hf
    have hlen : r.length - 1 + 1 = r.length := by
      cases r with
      | nil => exact absurd rfl hne
      | cons a as => simp
    show r.take (r.length - 1 + 1) = r
    rw [hlen, List.take_length]

theorem hasPair_false_of_sublist {o c : Char} {v u : List Char}
    (hs : List.Sublist v u) (hu : hasPair o c u = false) :
    hasPair o c v = false := by
  rw [Bool.eq_false_iff] at hu ⊢
  exact fun hv => hu (hasPair_sublist hs hv)

/-- After the quote passes, none of the five distinct source patterns has a
match left: each pass removes its own matches, and the later passes only
delete characters. -/
theorem stripAllQuotes_pairFree (s : List Char) :
    hasPair dquoteChar dquoteChar (stripAllQuotes s) = false ∧
    hasPair squoteChar squoteChar (stripAllQuotes s) = false ∧
    hasPair '「' '」' (stripAllQuotes s) = false ∧
    hasPair '『' '』' (stripAllQuotes s) = false ∧
    hasPair lsquoChar rsquoChar (stripAllQuotes s) = false := by
  have hunfold : stripAllQuotes s =
      stripPairs lsquoChar rsquoChar (stripPairs dquoteChar dquoteChar
        (stripPairs '『' '』' (stripPairs '「' '」'
          (stripPairs squoteChar squoteChar
            (stripPairs dquoteChar dquoteChar s))))) := by
    simp only [stripAllQuotes, quotePatterns, List.foldl_cons, List.foldl_nil]
  rw [hunfold]
  refine ⟨?_, ?_, ?_, ?_, ?_⟩
  · exact hasPair_false_of_sublist (stripPairs_sublist _ _ _)
      (stripPairs_pairFree _ _ _)
  · exact hasPair_false_of_sublist ((stripPairs_sublist _ _ _).trans
      ((stripPairs_sublist _ _ _).trans ((stripPairs_sublist _ _ _).trans
        (stripPairs_sublist _ _ _)))) (stripPairs_pairFree _ _ _)
  · exact hasPair_false_of_sublist ((stripPairs_sublist _ _ _).trans
      ((stripPairs_sublist _ _ _).trans (stripPairs_sublist _ _ _)))
      (stripPairs_pairFree _ _ _)
  · exact hasPair_false_of_sublist ((stripPairs_sublist _ _ _).trans
      (stripPairs_sublist _ _ _)) (stripPairs_pairFree _ _ _)
  · exact stripPairs_pairFree _ _ _

/-- Any string satisfying all the first-pass output invariants is a fixed
point of the extractor. -/
theorem extract_fixed_of_invariants (r : List Char) (m : Nat)
    (hstrip : pyStrip r = r)
    (hlen : r.length ≤ m)
    (htf : tailFree (fun ch => ch = newlineChar || ch = periodChar) r = true)
    (hq1 : hasPair dquoteChar dquoteChar r = false)
    (hq2 : hasPair squoteChar squoteChar r = false)
    (hq3 : hasPair '「' '」' r = false)
    (hq4 : hasPair '『' '』' r = false)
    (hq6 : hasPair lsquoChar rsquoChar r = false)
    (hacr : hasAcr false r = false)
    (hcol : collapsed r = true) :
    extract_first_sentence_for_detection r m = r := by
  by_cases hr : r = []
  · subst hr
    rfl
  · have hg : (r.isEmpty || (pyStrip r).isEmpty) = false := by
      rw [hstrip, Bool.or_self, List.isEmpty_eq_false_iff_exists_mem]
      cases r with
      | nil => exact absurd rfl hr
      | cons a as => exact ⟨a, List.mem_cons_self a as⟩
    rw [extract_first_sentence_for_detection, hg]
    simp only [Bool.false_eq_true, if_false]
    have hcand : candidateOf r m = r := by
      rw [candidateOf, hstrip, firstSentenceCut_eq_delimCut,
        delimCut_eq_self_of_tailFree r htf, truncateTo, if_neg (by omega)]
    rw [hcand]
    have hq : stripAllQuotes r = r := by
      simp only [stripAllQuotes, quotePatterns, List.foldl_cons, List.foldl_nil]
      rw [stripPairs_of_pairFree _ _ _ hq1, stripPairs_of_pairFree _ _ _ hq2,
        stripPairs_of_pairFree _ _ _ hq3, stripPairs_of_pairFree _ _ _ hq4,
        stripPairs_of_pairFree _ _ _ hq1, stripPairs_of_pairFree _ _ _ hq6]
    rw [hq, stripAcronyms, stripAcronymsGo_of_noAcr r false hacr,
      collapseWs, collapsedGo_fixpoint r false hcol, hstrip]

theorem extract_pyStrip_fixed (text : List Char) (m : Nat) :
    pyStrip (extract_first_sentence_for_detection text m) =
      extract_first_sentence_for_detection text m := by
  rw [extract_first_sentence_for_detection]
  split
  · rfl
  · exact pyStrip_idem _

theorem extract_tailFree (text : List Char) (m : Nat) :
    tailFree (fun ch => ch = newlineChar || ch = periodChar)
      (extract_first_sentence_for_detection text m) = true := by
  rw [extract_first_sentence_for_detection]
  split
  · rfl
  · refine tailFree_sublist (pyStrip_sublist _)
      ((tailFree_collapseGo (by decide) _ ?_).1)
    refine tailFree_sublist (stripAcronyms_sublist _)
      (tailFree_sublist (stripAllQuotes_sublist _) ?_)
    rw [candidateOf]
    refine tailFree_sublist (truncateTo_sublist _ _) ?_
    rw [firstSentenceCut_eq_delimCut]
    exact tailFree_delimCut _

theorem extract_pairFree (text : List Char) (m : Nat) :
    hasPair dquoteChar dquoteChar
        (extract_first_sentence_for_detection text m) = false ∧
    hasPair squoteChar squoteChar
        (extract_first_sentence_for_detection text m) = false ∧
    hasPair '「' '」' (extract_first_sentence_for_detection text m) = false ∧
    hasPair '『' '』' (extract_first_sentence_for_detection text m) = false ∧
    hasPair lsquoChar rsquoChar
        (extract_first_sentence_for_detection text m) = false := by
  rw [extract_first_sentence_for_detection]
  split
  · exact ⟨rfl, rfl, rfl, rfl, rfl⟩
  · have hs := stripAllQuotes_pairFree (candidateOf text m)
    have transfer : ∀ o c : Char, isSpace o = false → isSpace c = false →
        hasPair o c (stripAllQuotes (candidateOf text m)) = false →
        hasPair o c (pyStrip (collapseWs (stripAcronyms
          (stripAllQuotes (candidateOf text m))))) = false := by
      intro o c ho hc h
      refine hasPair_false_of_sublist (pyStrip_sublist _) ?_
      have h2 : hasPair o c (stripAcronyms
          (stripAllQuotes (candidateOf text m))) = false :=
        hasPair_false_of_sublist (stripAcronyms_sublist _) h
      rw [Bool.eq_false_iff] at h2 ⊢
      exact fun hv => h2 (hasPair_collapseGo ho hc _ false hv)
    exact ⟨transfer _ _ (by decide) (by decide) hs.1,
      transfer _ _ (by decide) (by decide) hs.2.1,
      transfer _ _ (by decide) (by decide) hs.2.2.1,
      transfer _ _ (by decide) (by decide) hs.2.2.2.1,
      transfer _ _ (by decide) (by decide) hs.2.2.2.2⟩

theorem extract_noAcr (text : List Char) (m : Nat) :
    hasAcr false (extract_first_sentence_for_detection text m) = false := by
  rw [extract_first_sentence_for_detection]
  split
  · rfl
  · refine hasAcr_pyStrip _ ?_
    exact (hasAcr_collapseGo _).1 false (stripAcronyms_noAcr _)

theorem extract_collapsed (text : List Char) (m : Nat) :
    collapsed (extract_first_sentence_for_detection text m) = true := by
  rw [extract_first_sentence_for_detection]
  split
  · rfl
  · exact collapsed_pyStrip (collapsedGo_collapseGo _ false)

/-! ## Claim C10 -/

/-- C10: the extractor is idempotent — a first pass leaves no quoted pair,
no acronym token, no delimiter before the final position, no whitespace run
and no over-length fragment for a second pass to change. -/
theorem claim_C10_extract_idempotent (text : List Char) (maxChars : Nat)
    (hpos : 0 < maxChars) :
    extract_first_sentence_for_detection
        (extract_first_sentence_for_detection text maxChars) maxChars =
      extract_first_sentence_for_detection text maxChars := by
  have hp := extract_pairFree text maxChars
  exact extract_fixed_of_invariants _ maxChars
    (extract_pyStrip_fixed text maxChars)
    (extract_length_le text maxChars)
    (extract_tailFree text maxChars)
    hp.1 hp.2.1 hp.2.2.1 hp.2.2.2.1 hp.2.2.2.2
    (extract_noAcr text maxChars)
    (extract_collapsed text maxChars)

/-- Fidelity check of the `\b` boundaries: a Cyrillic letter directly after
an uppercase run is a word character, so `NASAгод` has no trailing word
boundary and the acronym pass keeps it, exactly as
`re.sub(r'\b[A-Z]{2,5}\b', '', 'NASAгод')` does. -/
theorem stripAcronyms_unicode_word_boundary :
    stripAcronyms (("NASAгод").toList) = ("NASAгод").toList := by decide

/-- The same input passes through the whole extractor unchanged, matching
the Python pipeline. -/
theorem extract_unicode_word_boundary :
    extract_first_sentence_for_detection (("NASAгод").toList) 50 =
      ("NASAгод").toList := by decide

/-- C10 witness: the claim-C7 input reaches a fixed point after one pass. -/
theorem claim_C10_witness :
    0 < 50 ∧
      extract_first_sentence_for_detection
          (extract_first_sentence_for_detection c7Input 50) 50 =
        extract_first_sentence_for_detection c7Input 50 :=
  ⟨by decide, claim_C10_extract_idempotent c7Input 50 (by decide)⟩

end LangUtils
